import Mathlib

/-!
Verification of the sphere-layout / graph / tessellation engine.

The development shallowly embeds the engine's source:
  * `distributePointsOnSphere` — the spherical layout (utils/math).
  * `getVectorFromSpherical` — spherical-to-Cartesian mapping.
  * `computeConvexHull`, `computeNearestNeighborGraph`, `buildGraph` —
    the connectivity graph builders (SkillSphere).
  * the tessellation buffers of `SkillMesh` and the label scaling of
    `SkillNode`.
Numbers are modelled as real numbers; `three.js` vector operations
(`subVectors`, `crossVectors`, `normalize`, …) are spelled out on an
explicit `Vec3` structure, including `normalize`'s division by
`length() || 1` which maps the zero vector to itself.
-/

noncomputable section

set_option maxRecDepth 100000

/-- A 3-component vector of reals, standing for a `THREE.Vector3`. -/
structure Vec3 where
  x : ℝ
  y : ℝ
  z : ℝ

namespace Vec3

/-- `new THREE.Vector3(0,0,0)`. -/
def zero : Vec3 := ⟨0, 0, 0⟩

/-- `subVectors a b` : componentwise `a - b`. -/
def sub (a b : Vec3) : Vec3 := ⟨a.x - b.x, a.y - b.y, a.z - b.z⟩

/-- `addVectors a b` : componentwise `a + b`. -/
def add (a b : Vec3) : Vec3 := ⟨a.x + b.x, a.y + b.y, a.z + b.z⟩

/-- `multiplyScalar r` applied to `a`. -/
def smul (r : ℝ) (a : Vec3) : Vec3 := ⟨r * a.x, r * a.y, r * a.z⟩

/-- `a.dot b`. -/
def dot (a b : Vec3) : ℝ := a.x * b.x + a.y * b.y + a.z * b.z

/-- `crossVectors a b`. -/
def cross (a b : Vec3) : Vec3 :=
  ⟨a.y * b.z - a.z * b.y, a.z * b.x - a.x * b.z, a.x * b.y - a.y * b.x⟩

/-- `a.length()` : the Euclidean norm. -/
def length (a : Vec3) : ℝ := Real.sqrt (a.x * a.x + a.y * a.y + a.z * a.z)

/-- `a.normalize()` : `three.js` divides by `length() || 1`, so the zero
vector normalizes to itself rather than raising a fault. -/
def normalize (a : Vec3) : Vec3 :=
  smul (1 / (if a.length = 0 then 1 else a.length)) a

/-- `a.distanceTo b`. -/
def distanceTo (a b : Vec3) : ℝ := (sub a b).length

/-- `a.addScaledVector v s` (used by the patch evaluation). -/
def addScaled (a v : Vec3) (s : ℝ) : Vec3 := add a (smul s v)

end Vec3

/-- One `{phi, theta}` entry of the spherical layout. -/
structure SphPoint where
  phi : ℝ
  theta : ℝ

/-- `(1 + Math.sqrt(5)) / 2`, the golden-ratio constant of the spiral. -/
def goldenConst : ℝ := (1 + Real.sqrt 5) / 2

/-- `distributePointsOnSphere` from `utils/math`: lookup table for counts
1–6, Fibonacci spiral otherwise (counts 0 and ≥ 7 both fall through to the
spiral loop, which is empty for 0). -/
def distributePointsOnSphere (count : ℕ) : List SphPoint :=
  if count = 1 then
    [⟨0, 0⟩]
  else if count = 2 then
    [⟨0, 0⟩, ⟨Real.pi, 0⟩]
  else if count = 3 then
    [⟨Real.pi / 2, 0⟩, ⟨Real.pi / 2, 2 * Real.pi / 3⟩, ⟨Real.pi / 2, 4 * Real.pi / 3⟩]
  else if count = 4 then
    [⟨0, 0⟩, ⟨Real.arccos (-1 / 3), 0⟩, ⟨Real.arccos (-1 / 3), 2 * Real.pi / 3⟩,
      ⟨Real.arccos (-1 / 3), 4 * Real.pi / 3⟩]
  else if count = 5 then
    [⟨0, 0⟩, ⟨Real.pi, 0⟩, ⟨Real.pi / 2, 0⟩, ⟨Real.pi / 2, 2 * Real.pi / 3⟩,
      ⟨Real.pi / 2, 4 * Real.pi / 3⟩]
  else if count = 6 then
    [⟨0, 0⟩, ⟨Real.pi, 0⟩, ⟨Real.pi / 2, 0⟩, ⟨Real.pi / 2, Real.pi / 2⟩,
      ⟨Real.pi / 2, Real.pi⟩, ⟨Real.pi / 2, 3 * Real.pi / 2⟩]
  else
    (List.range count).map fun i : ℕ =>
      ⟨Real.arccos (1 - 2 * ((i : ℝ) + 0.5) / (count : ℝ)),
        2 * Real.pi * (i : ℝ) / goldenConst⟩

/-- `getVectorFromSpherical` from `utils/math`. -/
def getVectorFromSpherical (radius phi theta : ℝ) : Vec3 :=
  ⟨radius * Real.sin phi * Real.cos theta,
    radius * Real.cos phi,
    radius * Real.sin phi * Real.sin theta⟩

lemma distributePointsOnSphere_length (count : ℕ) :
    (distributePointsOnSphere count).length = count := by
  unfold distributePointsOnSphere
  repeat' split
  all_goals simp_all

lemma distributePointsOnSphere_spiral (count : ℕ) (h : 7 ≤ count) :
    distributePointsOnSphere count =
      (List.range count).map fun i : ℕ =>
        ⟨Real.arccos (1 - 2 * ((i : ℝ) + 0.5) / (count : ℝ)),
          2 * Real.pi * (i : ℝ) / goldenConst⟩ := by
  unfold distributePointsOnSphere
  rw [if_neg (by omega), if_neg (by omega), if_neg (by omega), if_neg (by omega),
    if_neg (by omega), if_neg (by omega)]

lemma goldenConst_pos : 0 < goldenConst := by
  unfold goldenConst
  have : (0 : ℝ) ≤ Real.sqrt 5 := Real.sqrt_nonneg 5
  linarith

lemma goldenConst_le_two : goldenConst ≤ 2 := by
  unfold goldenConst
  have h9 : Real.sqrt 5 ≤ 3 := by
    have h3 : ((3 : ℝ)) = Real.sqrt 9 := by
      rw [show (9 : ℝ) = 3 ^ 2 by norm_num, Real.sqrt_sq (by norm_num : (0 : ℝ) ≤ 3)]
    rw [h3]
    exact Real.sqrt_le_sqrt (by norm_num)
  linarith

/-- Claim C4: `distributePointsOnSphere` returns exactly N angle pairs for
every N ≥ 0 (the empty sequence for N = 0), and for N in 1..6 the returned
pairs are exactly the lookup-table angle sets of the spec: N=3 gives three
equatorial points (inclination π/2) with azimuths 0, 2π/3, 4π/3; N=4 gives
one pole plus three points at inclination `acos(-1/3)` spaced 2π/3 apart;
similarly for N=1, 2, 5 and 6. -/
theorem layout_count_and_small_tables :
    (∀ count : ℕ, (distributePointsOnSphere count).length = count) ∧
    distributePointsOnSphere 0 = [] ∧
    distributePointsOnSphere 1 = [⟨0, 0⟩] ∧
    distributePointsOnSphere 2 = [⟨0, 0⟩, ⟨Real.pi, 0⟩] ∧
    distributePointsOnSphere 3 =
      [⟨Real.pi / 2, 0⟩, ⟨Real.pi / 2, 2 * Real.pi / 3⟩, ⟨Real.pi / 2, 4 * Real.pi / 3⟩] ∧
    distributePointsOnSphere 4 =
      [⟨0, 0⟩, ⟨Real.arccos (-1 / 3), 0⟩, ⟨Real.arccos (-1 / 3), 2 * Real.pi / 3⟩,
        ⟨Real.arccos (-1 / 3), 4 * Real.pi / 3⟩] ∧
    distributePointsOnSphere 5 =
      [⟨0, 0⟩, ⟨Real.pi, 0⟩, ⟨Real.pi / 2, 0⟩, ⟨Real.pi / 2, 2 * Real.pi / 3⟩,
        ⟨Real.pi / 2, 4 * Real.pi / 3⟩] ∧
    distributePointsOnSphere 6 =
      [⟨0, 0⟩, ⟨Real.pi, 0⟩, ⟨Real.pi / 2, 0⟩, ⟨Real.pi / 2, Real.pi / 2⟩,
        ⟨Real.pi / 2, Real.pi⟩, ⟨Real.pi / 2, 3 * Real.pi / 2⟩] := by
  refine ⟨distributePointsOnSphere_length, ?_, rfl, rfl, rfl, rfl, rfl, rfl⟩
  rfl

/-- Claim C1 (counterexample): the claim asserts every spiral azimuth lies
in `[0, 2π)` (being reduced mod 2π), but the code never reduces: at N = 7,
index 2, the azimuth `2π·2/goldenRatio = 4π/goldenRatio` is ≥ 2π because
the golden ratio is at most 2. -/
theorem layout_spiral_azimuth_not_reduced :
    ¬ (((distributePointsOnSphere 7).getD 2 ⟨0, 0⟩).theta < 2 * Real.pi) := by
  have h7 : distributePointsOnSphere 7 =
      (List.range 7).map fun i : ℕ =>
        ⟨Real.arccos (1 - 2 * ((i : ℝ) + 0.5) / (7 : ℝ)),
          2 * Real.pi * (i : ℝ) / goldenConst⟩ :=
    distributePointsOnSphere_spiral 7 le_rfl
  rw [h7]
  have hget :
      (((List.range 7).map fun i : ℕ =>
          (⟨Real.arccos (1 - 2 * ((i : ℝ) + 0.5) / (7 : ℝ)),
            2 * Real.pi * (i : ℝ) / goldenConst⟩ : SphPoint)).getD 2 ⟨0, 0⟩) =
        ⟨Real.arccos (1 - 2 * ((2 : ℝ) + 0.5) / (7 : ℝ)),
          2 * Real.pi * (2 : ℝ) / goldenConst⟩ := by
    norm_num [List.getD_eq_getElem?_getD, List.getElem?_map, List.getElem?_range]
  rw [hget]
  simp only [not_lt]
  have hg0 := goldenConst_pos
  have hg2 := goldenConst_le_two
  have hpi := Real.pi_pos
  rw [le_div_iff₀ hg0]
  nlinarith

/-- Claim C1 (amended): for N ≥ 7 and i < N, `distributePointsOnSphere N`
returns at index i the inclination `acos(1 − 2(i+0.5)/N)` and the azimuth
`2π·i/goldenRatio` taken without any mod-2π reduction (so it is congruent
to the spec's value mod 2π but exceeds 2π from i = 2 on). -/
theorem layout_spiral_formula (count i : ℕ) (h7 : 7 ≤ count) (hi : i < count) :
    (distributePointsOnSphere count).getD i ⟨0, 0⟩ =
      ⟨Real.arccos (1 - 2 * ((i : ℝ) + 0.5) / (count : ℝ)),
        2 * Real.pi * (i : ℝ) / goldenConst⟩ := by
  rw [distributePointsOnSphere_spiral count h7]
  simp [List.getD_eq_getElem?_getD, List.getElem?_map, List.getElem?_range, hi]

/-- Witness for the amended C1 at N = 7, i = 2. -/
theorem layout_spiral_formula_witness :
    7 ≤ 7 ∧ 2 < 7 ∧
      (distributePointsOnSphere 7).getD 2 ⟨0, 0⟩ =
        ⟨Real.arccos (1 - 2 * ((2 : ℕ) + 0.5) / ((7 : ℕ) : ℝ)),
          2 * Real.pi * ((2 : ℕ) : ℝ) / goldenConst⟩ :=
  ⟨le_rfl, by norm_num, layout_spiral_formula 7 2 le_rfl (by norm_num)⟩

/-- One node of the graph builders (`NodeData` in the source). -/
structure NodeData where
  id : String
  pos : Vec3
  color : String

/-- One edge of the graph builders (`EdgeData` in the source); the field
`stop` stands for the source's `end`, a Lean keyword. -/
structure EdgeData where
  start : Vec3
  stop : Vec3
  mid : Vec3
  color : String
  nodeAId : String
  nodeBId : String

/-- One face of the graph builders (`FaceData` in the source). -/
structure FaceData where
  nodeIds : String × String × String
  positions : Vec3 × Vec3 × Vec3
  controlPoints : Vec3 × Vec3 × Vec3
  colors : String × String × String

/-- `settings.connectionStyle`. -/
inductive ConnectionStyle
  | none
  | straight
  | curveIn
  | curveOut
deriving DecidableEq

/-- `settings.connectionMode` (`'auto'` selects the convex hull). -/
inductive ConnectionMode
  | auto
  | fixed
deriving DecidableEq

/-- `settings.fillColorMode`. -/
inductive FillColorMode
  | gradient
  | solid
  | core
deriving DecidableEq

/-- `getEdgeControlPoint`: the midpoint of the edge, scaled radially by
0.7 for `curve-in`, by 1.3 for `curve-out`, and left alone otherwise. -/
def getEdgeControlPoint (p1 p2 : Vec3) (style : ConnectionStyle) : Vec3 :=
  let mid := Vec3.smul 0.5 (Vec3.add p1 p2)
  match style with
  | ConnectionStyle.curveIn => Vec3.smul 0.7 mid
  | ConnectionStyle.curveOut => Vec3.smul 1.3 mid
  | _ => mid

/-- An RGB triple of reals, standing for a `THREE.Color`. -/
structure Color where
  r : ℝ
  g : ℝ
  b : ℝ

/-- `getPoint` of `SkillMesh`: the quadratic Bezier triangle
`u²·P1 + v²·P2 + w²·P3 + 2uv·E1 + 2vw·E2 + 2wu·E3`, chained with
`addScaledVector` from the zero vector exactly as the code does. -/
def getPoint (p1 p2 p3 e1 e2 e3 : Vec3) (u v w : ℝ) : Vec3 :=
  (((((Vec3.zero.addScaled p1 (u * u)).addScaled p2 (v * v)).addScaled p3 (w * w)).addScaled
      e1 (2 * u * v)).addScaled e2 (2 * v * w)).addScaled e3 (2 * w * u)

/-- `getColor` of `SkillMesh`: in gradient mode the per-vertex color is the
barycentric combination `u·C1 + v·C2 + w·C3`; otherwise it is the solid
color. -/
def getColor (mode : FillColorMode) (c1 c2 c3 sColor : Color) (u v w : ℝ) : Color :=
  if mode = FillColorMode.gradient then
    ⟨c1.r * u + c2.r * v + c3.r * w,
      c1.g * u + c2.g * v + c3.g * w,
      c1.b * u + c2.b * v + c3.b * w⟩
  else sColor

/-- The three floats a vertex position pushes onto `positions`. -/
def vecFloats (p : Vec3) : List ℝ := [p.x, p.y, p.z]

/-- The three floats a vertex color pushes onto `colors`. -/
def colorFloats (c : Color) : List ℝ := [c.r, c.g, c.b]

/-- The floats grid cell `(i, j)` of the curved branch pushes
(`segments = 12`): the "up" sub-triangle always, the "down" sub-triangle
when `i + j + 1 < segments`. -/
def curvedCell (mode : FillColorMode) (sColor c1 c2 c3 : Color)
    (p1 p2 p3 e1 e2 e3 : Vec3) (i j : ℕ) : List ℝ × List ℝ :=
  let segs : ℝ := 12
  let k : ℝ := segs - (i : ℝ) - (j : ℝ)
  let u1 := (i : ℝ) / segs
  let v1 := (j : ℝ) / segs
  let w1 := k / segs
  let u2 := ((i : ℝ) + 1) / segs
  let v2 := (j : ℝ) / segs
  let w2 := (k - 1) / segs
  let u3 := (i : ℝ) / segs
  let v3 := ((j : ℝ) + 1) / segs
  let w3 := (k - 1) / segs
  let q1 := getPoint p1 p2 p3 e1 e2 e3 u1 v1 w1
  let q2 := getPoint p1 p2 p3 e1 e2 e3 u2 v2 w2
  let q3 := getPoint p1 p2 p3 e1 e2 e3 u3 v3 w3
  let d1 := getColor mode c1 c2 c3 sColor u1 v1 w1
  let d2 := getColor mode c1 c2 c3 sColor u2 v2 w2
  let d3 := getColor mode c1 c2 c3 sColor u3 v3 w3
  if i + j + 1 < 12 then
    let u4 := ((i : ℝ) + 1) / segs
    let v4 := ((j : ℝ) + 1) / segs
    let w4 := (k - 2) / segs
    let q4 := getPoint p1 p2 p3 e1 e2 e3 u4 v4 w4
    let d4 := getColor mode c1 c2 c3 sColor u4 v4 w4
    (vecFloats q1 ++ vecFloats q2 ++ vecFloats q3 ++ vecFloats q2 ++ vecFloats q4 ++ vecFloats q3,
      colorFloats d1 ++ colorFloats d2 ++ colorFloats d3 ++
        colorFloats d2 ++ colorFloats d4 ++ colorFloats d3)
  else
    (vecFloats q1 ++ vecFloats q2 ++ vecFloats q3,
      colorFloats d1 ++ colorFloats d2 ++ colorFloats d3)

/-- The floats one face pushes in `SkillMesh`'s `meshData` loop: the bare
corners for the straight (flat) style, the subdivided quadratic patch
otherwise. `toColor` stands for `new THREE.Color(·)` applied to the
face's color strings. -/
def faceBuffers (isStraight : Bool) (mode : FillColorMode) (sColor : Color)
    (toColor : String → Color) (face : FaceData) : List ℝ × List ℝ :=
  let p1 := face.positions.1
  let p2 := face.positions.2.1
  let p3 := face.positions.2.2
  let e1 := face.controlPoints.1
  let e2 := face.controlPoints.2.1
  let e3 := face.controlPoints.2.2
  let c1 := toColor face.colors.1
  let c2 := toColor face.colors.2.1
  let c3 := toColor face.colors.2.2
  if isStraight then
    (vecFloats p1 ++ vecFloats p2 ++ vecFloats p3,
      if mode = FillColorMode.gradient then
        colorFloats c1 ++ colorFloats c2 ++ colorFloats c3
      else
        colorFloats sColor ++ colorFloats sColor ++ colorFloats sColor)
  else
    ((List.range 12).flatMap fun i =>
        (List.range (12 - i)).flatMap fun j =>
          (curvedCell mode sColor c1 c2 c3 p1 p2 p3 e1 e2 e3 i j).1,
      (List.range 12).flatMap fun i =>
        (List.range (12 - i)).flatMap fun j =>
          (curvedCell mode sColor c1 c2 c3 p1 p2 p3 e1 e2 e3 i j).2)

/-- The full `positions` buffer over all faces. -/
def meshPositions (isStraight : Bool) (mode : FillColorMode) (sColor : Color)
    (toColor : String → Color) (faces : List FaceData) : List ℝ :=
  faces.flatMap fun f => (faceBuffers isStraight mode sColor toColor f).1

/-- The full `colors` buffer over all faces. -/
def meshColors (isStraight : Bool) (mode : FillColorMode) (sColor : Color)
    (toColor : String → Color) (faces : List FaceData) : List ℝ :=
  faces.flatMap fun f => (faceBuffers isStraight mode sColor toColor f).2

lemma faceBuffers_flat_positions_length (mode : FillColorMode) (sColor : Color)
    (toColor : String → Color) (face : FaceData) :
    (faceBuffers true mode sColor toColor face).1.length = 9 := rfl

lemma faceBuffers_flat_colors_length (mode : FillColorMode) (sColor : Color)
    (toColor : String → Color) (face : FaceData) :
    (faceBuffers true mode sColor toColor face).2.length = 9 := by
  cases mode <;> rfl

lemma faceBuffers_curved_positions_length (mode : FillColorMode) (sColor : Color)
    (toColor : String → Color) (face : FaceData) :
    (faceBuffers false mode sColor toColor face).1.length = 1296 := rfl

lemma faceBuffers_curved_colors_length (mode : FillColorMode) (sColor : Color)
    (toColor : String → Color) (face : FaceData) :
    (faceBuffers false mode sColor toColor face).2.length = 1296 := rfl

lemma meshPositions_length (isStraight : Bool) (mode : FillColorMode) (sColor : Color)
    (toColor : String → Color) (faces : List FaceData) :
    (meshPositions isStraight mode sColor toColor faces).length =
      (if isStraight then 9 else 1296) * faces.length := by
  induction faces with
  | nil => simp [meshPositions]
  | cons f fs ih =>
    rw [meshPositions, List.flatMap_cons, List.length_append]
    rw [meshPositions] at ih
    rw [ih]
    cases isStraight with
    | false =>
      rw [faceBuffers_curved_positions_length]
      simp only [Bool.false_eq_true, if_false, List.length_cons]
      ring
    | true =>
      rw [faceBuffers_flat_positions_length]
      simp only [if_true, List.length_cons]
      ring

lemma meshColors_length (isStraight : Bool) (mode : FillColorMode) (sColor : Color)
    (toColor : String → Color) (faces : List FaceData) :
    (meshColors isStraight mode sColor toColor faces).length =
      (if isStraight then 9 else 1296) * faces.length := by
  induction faces with
  | nil => simp [meshColors]
  | cons f fs ih =>
    rw [meshColors, List.flatMap_cons, List.length_append]
    rw [meshColors] at ih
    rw [ih]
    cases isStraight with
    | false =>
      rw [faceBuffers_curved_colors_length]
      simp only [Bool.false_eq_true, if_false, List.length_cons]
      ring
    | true =>
      rw [faceBuffers_flat_colors_length]
      simp only [if_true, List.length_cons]
      ring

/-- Claim C6: a flat-style face emits exactly 3 vertices (9 position floats
and 9 color floats); a curved-style face with `segments = 12` emits exactly
144 sub-triangles, i.e. 432 vertices (1296 floats) per face; and the
tessellation is a pure function, so identical inputs give identical
buffers. -/
theorem tessellation_vertex_counts :
    ∀ (mode : FillColorMode) (sColor : Color) (toColor : String → Color)
      (faces : List FaceData),
      (meshPositions true mode sColor toColor faces).length = 9 * faces.length ∧
      (meshColors true mode sColor toColor faces).length = 9 * faces.length ∧
      (meshPositions false mode sColor toColor faces).length = 1296 * faces.length ∧
      (meshColors false mode sColor toColor faces).length = 1296 * faces.length ∧
      (∀ (isStraight : Bool) (faces2 : List FaceData), faces = faces2 →
        meshPositions isStraight mode sColor toColor faces =
            meshPositions isStraight mode sColor toColor faces2 ∧
          meshColors isStraight mode sColor toColor faces =
            meshColors isStraight mode sColor toColor faces2) := by
  intro mode sColor toColor faces
  refine ⟨?_, ?_, ?_, ?_, ?_⟩
  · simpa using meshPositions_length true mode sColor toColor faces
  · simpa using meshColors_length true mode sColor toColor faces
  · simpa using meshPositions_length false mode sColor toColor faces
  · simpa using meshColors_length false mode sColor toColor faces
  · rintro isStraight faces2 rfl
    exact ⟨rfl, rfl⟩

/-- Modelled from the spec for the C7 comparison only: the edge control
color that "interpolating color the same way as position" would call for —
the `getEdgeControlPoint` midpoint-and-scale rule applied to the two
corner colors. -/
def specEdgeControlColor (c1 c2 : Color) (style : ConnectionStyle) : Color :=
  let mid : Color := ⟨0.5 * (c1.r + c2.r), 0.5 * (c1.g + c2.g), 0.5 * (c1.b + c2.b)⟩
  match style with
  | ConnectionStyle.curveIn => ⟨0.7 * mid.r, 0.7 * mid.g, 0.7 * mid.b⟩
  | ConnectionStyle.curveOut => ⟨1.3 * mid.r, 1.3 * mid.g, 1.3 * mid.b⟩
  | _ => mid

/-- Modelled from the spec for the C7 comparison only: the claim's
quadratic barycentric color formula
`u²·C1 + v²·C2 + w²·C3 + 2uv·E1 + 2vw·E2 + 2wu·E3`, the exact shape the
position interpolation `getPoint` uses. -/
def specQuadColor (c1 c2 c3 e1 e2 e3 : Color) (u v w : ℝ) : Color :=
  ⟨u * u * c1.r + v * v * c2.r + w * w * c3.r +
      2 * u * v * e1.r + 2 * v * w * e2.r + 2 * w * u * e3.r,
    u * u * c1.g + v * v * c2.g + w * w * c3.g +
      2 * u * v * e1.g + 2 * v * w * e2.g + 2 * w * u * e3.g,
    u * u * c1.b + v * v * c2.b + w * w * c3.b +
      2 * u * v * e1.b + 2 * v * w * e2.b + 2 * w * u * e3.b⟩

/-- Claim C7 (counterexample): the tessellator does not interpolate color
the way it interpolates position. At the emitted barycentric vertex
`(u,v,w) = (1/2, 1/2, 0)` of a curve-in face with corner colors
`(1,0,0), (0,0,0), (0,0,0)`, the code's `getColor` gives red 1/2, while
the position-style quadratic formula (cross terms from the
`getEdgeControlPoint` rule applied to colors) gives red 0.425. -/
theorem gradient_color_not_position_formula :
    getColor FillColorMode.gradient ⟨1, 0, 0⟩ ⟨0, 0, 0⟩ ⟨0, 0, 0⟩ ⟨0, 0, 0⟩
        (1 / 2) (1 / 2) 0 ≠
      specQuadColor ⟨1, 0, 0⟩ ⟨0, 0, 0⟩ ⟨0, 0, 0⟩
        (specEdgeControlColor ⟨1, 0, 0⟩ ⟨0, 0, 0⟩ ConnectionStyle.curveIn)
        (specEdgeControlColor ⟨0, 0, 0⟩ ⟨0, 0, 0⟩ ConnectionStyle.curveIn)
        (specEdgeControlColor ⟨0, 0, 0⟩ ⟨1, 0, 0⟩ ConnectionStyle.curveIn)
        (1 / 2) (1 / 2) 0 := by
  intro h
  have hr := congrArg Color.r h
  norm_num [getColor, specQuadColor, specEdgeControlColor] at hr

/-- Claim C7 (amended): in gradient mode the tessellator interpolates
vertex color by the linear barycentric formula `u·C1 + v·C2 + w·C3` (not
the quadratic position formula), and at each corner of the barycentric
domain the emitted color exactly equals that corner's input color. -/
theorem gradient_color_linear_and_corners :
    ∀ (c1 c2 c3 sColor : Color) (u v w : ℝ),
      getColor FillColorMode.gradient c1 c2 c3 sColor u v w =
        ⟨c1.r * u + c2.r * v + c3.r * w,
          c1.g * u + c2.g * v + c3.g * w,
          c1.b * u + c2.b * v + c3.b * w⟩ ∧
      getColor FillColorMode.gradient c1 c2 c3 sColor 1 0 0 = c1 ∧
      getColor FillColorMode.gradient c1 c2 c3 sColor 0 1 0 = c2 ∧
      getColor FillColorMode.gradient c1 c2 c3 sColor 0 0 1 = c3 := by
  intro c1 c2 c3 sColor u v w
  refine ⟨rfl, ?_, ?_, ?_⟩ <;>
    · cases c1
      cases c2
      cases c3
      simp [getColor]

/-- `fillOpacity >= 0.99` — the `isOpaque` flag of `SkillMesh`. -/
def isOpaque (fillOpacity : ℝ) : Bool := decide (fillOpacity ≥ 0.99)

/-- `renderOrder={isOpaque ? 0 : 5}`. -/
def meshRenderOrder (fillOpacity : ℝ) : ℕ := if isOpaque fillOpacity then 0 else 5

/-- `transparent={!isOpaque}`. -/
def meshTransparent (fillOpacity : ℝ) : Bool := !(isOpaque fillOpacity)

/-- `depthWrite={isOpaque}`. -/
def meshDepthWrite (fillOpacity : ℝ) : Bool := isOpaque fillOpacity

/-- Claim C10: the tessellated mesh is flagged opaque—render order 0, no
transparency, depth-write on—exactly when the caller-supplied fill opacity
is at least 0.99; otherwise it gets render order 5 with transparency and
no depth-write. -/
theorem opaque_flag_iff_opacity :
    ∀ fillOpacity : ℝ,
      (isOpaque fillOpacity = true ↔ 0.99 ≤ fillOpacity) ∧
      (meshRenderOrder fillOpacity = 0 ∧ meshTransparent fillOpacity = false ∧
          meshDepthWrite fillOpacity = true ↔ 0.99 ≤ fillOpacity) ∧
      (meshRenderOrder fillOpacity = 5 ∧ meshTransparent fillOpacity = true ∧
          meshDepthWrite fillOpacity = false ↔ fillOpacity < 0.99) := by
  intro o
  by_cases h : (0.99 : ℝ) ≤ o
  · simp [isOpaque, meshRenderOrder, meshTransparent, meshDepthWrite, ge_iff_le, h]
  · simp [isOpaque, meshRenderOrder, meshTransparent, meshDepthWrite, ge_iff_le, h,
      lt_of_not_le h]

/-- The `distanceFactor` constant of the label scaling. -/
def HTML_DISTANCE_FACTOR : ℝ := 15

/-- The font size `SkillNode`'s frame callback computes: when the on-screen
size falls below the minimum it boosts the font to
`min 1500 (minLabelSize / scaleFactor)`; otherwise it returns the base
label size unchanged. -/
def labelFontSize (labelSize minLabelSize distance : ℝ) : ℝ :=
  let scaleFactor := HTML_DISTANCE_FACTOR / distance
  let visualSizeOnScreen := labelSize * scaleFactor
  if visualSizeOnScreen < minLabelSize then
    min 1500 (minLabelSize / scaleFactor)
  else labelSize

/-- Claim C8 (counterexample): the claim quantifies over every base label
size, but only the boosted branch is capped: with base size 2000, minimum
1 and distance 15 the scaler returns 2000, above the 1500 ceiling. -/
theorem label_scaler_exceeds_ceiling :
    labelFontSize 2000 1 15 = 2000 ∧ ¬ (labelFontSize 2000 1 15 ≤ 1500) := by
  have h : labelFontSize 2000 1 15 = 2000 := by
    unfold labelFontSize HTML_DISTANCE_FACTOR
    norm_num
  exact ⟨h, by rw [h]; norm_num⟩

/-- Claim C8 (amended): whenever the base label size itself is at most the
1500 ceiling, the label scaler never returns a font size above 1500, for
every camera distance and minimum label size (the boosted branch is capped
by `min 1500 ·`, the other branch returns the base size). -/
theorem label_scaler_capped (labelSize minLabelSize distance : ℝ)
    (hbase : labelSize ≤ 1500) :
    labelFontSize labelSize minLabelSize distance ≤ 1500 := by
  unfold labelFontSize
  dsimp only
  split
  · exact min_le_left _ _
  · exact hbase

/-- Witness for the amended C8 at base 100, minimum 5, distance 15. -/
theorem label_scaler_capped_witness :
    (100 : ℝ) ≤ 1500 ∧ labelFontSize 100 5 15 ≤ 1500 :=
  ⟨by norm_num, label_scaler_capped 100 5 15 (by norm_num)⟩

/-- `nodes[i]` (every access in the source is in-bounds; out of range
yields a junk node). -/
def nd (nodes : List NodeData) (i : ℕ) : NodeData :=
  nodes.getD i ⟨"", Vec3.zero, ""⟩

/-- The index triples `(i, j, k)` with `i < j < k < n`, in the source's
nested-loop order. -/
def hullTriples (n : ℕ) : List (ℕ × ℕ × ℕ) :=
  (List.range n).flatMap fun i =>
    (List.range n).flatMap fun j =>
      (List.range n).flatMap fun k =>
        if i < j ∧ j < k then [(i, j, k)] else []

/-- One step of the hull's side scan for one other node at `pm`: the state
is the running side (`0` none seen yet, else `±1`); `none` records that
the triple has been disqualified (the loop's `break`). `Math.sign` is
`±1` here because the branch requires `|dot| > 1e-4`. -/
def scanStep (normal p1 : Vec3) (s : ℤ) (pm : Vec3) : Option ℤ :=
  let d := Vec3.dot normal (Vec3.sub pm p1)
  if 1e-4 < |d| then
    let cur : ℤ := if 0 < d then 1 else -1
    if s = 0 then some cur else if s ≠ cur then none else some s
  else some s

/-- The side scan over the other nodes (`none` is absorbing, matching the
source's early `break`). -/
def scanList (normal p1 : Vec3) (others : List NodeData) : Option ℤ :=
  others.foldl
    (fun st m =>
      match st with
      | Option.none => Option.none
      | some s => scanStep normal p1 s m.pos)
    (some 0)

/-- The nodes the scan of triple `(i,j,k)` visits: every index `m` of the
list with `m ≠ i, j, k`, in order. -/
def othersOf (nodes : List NodeData) (i j k : ℕ) : List NodeData :=
  ((List.range nodes.length).filter fun m => ¬(m = i ∨ m = j ∨ m = k)).map (nd nodes)

/-- The hull's face test for triple `(i,j,k)`: normal = normalized cross
product of the two edge vectors; the triple qualifies iff the signed
distances beyond `1e-4` of all other nodes share one sign. -/
def isFaceTest (nodes : List NodeData) (i j k : ℕ) : Bool :=
  let p1 := (nd nodes i).pos
  let p2 := (nd nodes j).pos
  let p3 := (nd nodes k).pos
  let normal := Vec3.normalize (Vec3.cross (Vec3.sub p2 p1) (Vec3.sub p3 p1))
  (scanList normal p1 (othersOf nodes i j k)).isSome

/-- The face record pushed for a qualifying triple. -/
def mkFace (nodes : List NodeData) (style : ConnectionStyle) (i j k : ℕ) : FaceData :=
  let p1 := (nd nodes i).pos
  let p2 := (nd nodes j).pos
  let p3 := (nd nodes k).pos
  { nodeIds := ((nd nodes i).id, (nd nodes j).id, (nd nodes k).id)
    positions := (p1, p2, p3)
    controlPoints := (getEdgeControlPoint p1 p2 style, getEdgeControlPoint p2 p3 style,
      getEdgeControlPoint p3 p1 style)
    colors := ((nd nodes i).color, (nd nodes j).color, (nd nodes k).color) }

/-- The edge record pushed for the index-sorted pair `(a, b)` (its color
is the lower-indexed node's). -/
def mkEdge (nodes : List NodeData) (style : ConnectionStyle) (a b : ℕ) : EdgeData :=
  { start := (nd nodes a).pos
    stop := (nd nodes b).pos
    mid := getEdgeControlPoint (nd nodes a).pos (nd nodes b).pos style
    color := (nd nodes a).color
    nodeAId := (nd nodes a).id
    nodeBId := (nd nodes b).id }

/-- The hull's dedup key for the index-sorted pair `(a, b)`:
`nodes[a].id + "-" + nodes[b].id`. -/
def edgeKey (nodes : List NodeData) (a b : ℕ) : String :=
  (nd nodes a).id ++ "-" ++ (nd nodes b).id

/-- One dedup step of the edge accumulation: push key and edge unless the
key was already seen. -/
def addPair (nodes : List NodeData) (style : ConnectionStyle)
    (st : List String × List EdgeData) (p : ℕ × ℕ) : List String × List EdgeData :=
  if edgeKey nodes p.1 p.2 ∈ st.1 then st
  else (st.1 ++ [edgeKey nodes p.1 p.2], st.2 ++ [mkEdge nodes style p.1 p.2])

/-- The index-sorted side pairs of the qualifying triples in emission
order: the source pushes `[i,j], [j,k], [k,i]`, each sorted ascending,
i.e. `(i,j), (j,k), (i,k)`. -/
def hullSidePairs (nodes : List NodeData) : List (ℕ × ℕ) :=
  (hullTriples nodes.length).flatMap fun t =>
    if isFaceTest nodes t.1 t.2.1 t.2.2 then [(t.1, t.2.1), (t.2.1, t.2.2), (t.1, t.2.2)]
    else []

/-- The hull's deduplicated edge list. -/
def hullEdges (nodes : List NodeData) (style : ConnectionStyle) : List EdgeData :=
  ((hullSidePairs nodes).foldl (addPair nodes style) ([], [])).2

/-- The hull's face list. -/
def hullFaces (nodes : List NodeData) (style : ConnectionStyle) : List FaceData :=
  (hullTriples nodes.length).filterMap fun t =>
    if isFaceTest nodes t.1 t.2.1 t.2.2 then some (mkFace nodes style t.1 t.2.1 t.2.2)
    else none

/-- `computeConvexHull`: the brute-force exact hull of the source; fewer
than 4 nodes yields empty edge and face sets. -/
def computeConvexHull (nodes : List NodeData) (style : ConnectionStyle) :
    List EdgeData × List FaceData :=
  if nodes.length < 4 then ([], [])
  else (hullEdges nodes style, hullFaces nodes style)

lemma mem_hullTriples (n i j k : ℕ) :
    (i, j, k) ∈ hullTriples n ↔ i < j ∧ j < k ∧ k < n := by
  constructor
  · intro h
    simp only [hullTriples, List.mem_flatMap, List.mem_range] at h
    obtain ⟨a, ha, b, hb, c, hc, hmem⟩ := h
    by_cases hab : a < b ∧ b < c
    · rw [if_pos hab] at hmem
      simp only [List.mem_singleton, Prod.mk.injEq] at hmem
      obtain ⟨rfl, rfl, rfl⟩ := hmem
      exact ⟨hab.1, hab.2, hc⟩
    · rw [if_neg hab] at hmem
      simp at hmem
  · rintro ⟨hij, hjk, hk⟩
    simp only [hullTriples, List.mem_flatMap, List.mem_range]
    exact ⟨i, by omega, j, by omega, k, hk, by rw [if_pos ⟨hij, hjk⟩]; simp⟩

lemma vec_normalize_zero : Vec3.normalize Vec3.zero = Vec3.zero := by
  simp [Vec3.normalize, Vec3.length, Vec3.zero, Vec3.smul]

lemma scanStep_zero_normal (p1 : Vec3) (s : ℤ) (pm : Vec3) :
    scanStep Vec3.zero p1 s pm = some s := by
  unfold scanStep
  dsimp only
  rw [if_neg]
  simp [Vec3.dot, Vec3.zero]
  norm_num

lemma scanList_zero_normal (p1 : Vec3) (others : List NodeData) :
    scanList Vec3.zero p1 others = some 0 := by
  unfold scanList
  induction others with
  | nil => rfl
  | cons m rest ih =>
    rw [List.foldl_cons]
    simpa [scanStep_zero_normal] using ih

/-- Claim C2 (amended): hull construction never raises a fault on a
degenerate (coincident or collinear) triple — `three.js` normalizes the
zero cross product to the zero vector — but such triples are *not*
excluded: with a zero normal every signed distance is 0, the side test
passes vacuously, and the triple is emitted as a face (whenever the list
has at least 4 nodes, so the hull runs at all). -/
theorem degenerate_triple_becomes_face (nodes : List NodeData) (style : ConnectionStyle)
    (i j k : ℕ) (h4 : 4 ≤ nodes.length) (hij : i < j) (hjk : j < k)
    (hk : k < nodes.length)
    (hdeg : Vec3.cross (Vec3.sub (nd nodes j).pos (nd nodes i).pos)
        (Vec3.sub (nd nodes k).pos (nd nodes i).pos) = Vec3.zero) :
    ((nd nodes i).id, (nd nodes j).id, (nd nodes k).id) ∈
      (computeConvexHull nodes style).2.map FaceData.nodeIds := by
  rw [computeConvexHull, if_neg (by omega)]
  have htest : isFaceTest nodes i j k = true := by
    unfold isFaceTest
    dsimp only
    rw [hdeg, vec_normalize_zero, scanList_zero_normal]
    rfl
  refine List.mem_map.mpr ⟨mkFace nodes style i j k, ?_, rfl⟩
  unfold hullFaces
  exact List.mem_filterMap.mpr
    ⟨(i, j, k), (mem_hullTriples nodes.length i j k).mpr ⟨hij, hjk, hk⟩, by rw [htest]; rfl⟩

/-- Concrete nodes: the first three positions are collinear
(`(0,0,0), (1,0,0), (2,0,0)`), the fourth is `(0,1,0)`; the ids are chosen
so that the two distinct id pairs `{"a","b-c"}` and `{"a-b","c"}` share
the dedup key `"a-b-c"`. -/
def nodeP0 : NodeData := ⟨"a", ⟨0, 0, 0⟩, "#c0"⟩

/-- Second concrete node (id `"a-b"`, position `(1,0,0)`). -/
def nodeP1 : NodeData := ⟨"a-b", ⟨1, 0, 0⟩, "#c1"⟩

/-- Third concrete node (id `"b-c"`, position `(2,0,0)`). -/
def nodeP2 : NodeData := ⟨"b-c", ⟨2, 0, 0⟩, "#c2"⟩

/-- Fourth concrete node (id `"c"`, position `(0,1,0)`). -/
def nodeP3 : NodeData := ⟨"c", ⟨0, 1, 0⟩, "#c3"⟩

/-- The concrete list in its first ordering. -/
def cfgP : List NodeData := [nodeP0, nodeP1, nodeP2, nodeP3]

/-- The same four nodes reordered. -/
def cfgQ : List NodeData := [nodeP1, nodeP3, nodeP0, nodeP2]

lemma cfgP_deg_cross :
    Vec3.cross (Vec3.sub (nd cfgP 1).pos (nd cfgP 0).pos)
        (Vec3.sub (nd cfgP 2).pos (nd cfgP 0).pos) = Vec3.zero := by
  show Vec3.cross (Vec3.sub nodeP1.pos nodeP0.pos) (Vec3.sub nodeP2.pos nodeP0.pos) =
    Vec3.zero
  simp only [nodeP0, nodeP1, nodeP2, Vec3.sub, Vec3.cross, Vec3.zero]
  norm_num

/-- Witness for the amended C2: in the concrete list `cfgP` the collinear
triple `(0,1,2)` has a zero cross product and its ids are emitted as a
face. -/
theorem degenerate_triple_becomes_face_witness :
    4 ≤ cfgP.length ∧ (0 : ℕ) < 1 ∧ (1 : ℕ) < 2 ∧ 2 < cfgP.length ∧
      Vec3.cross (Vec3.sub (nd cfgP 1).pos (nd cfgP 0).pos)
          (Vec3.sub (nd cfgP 2).pos (nd cfgP 0).pos) = Vec3.zero ∧
      ((nd cfgP 0).id, (nd cfgP 1).id, (nd cfgP 2).id) ∈
        (computeConvexHull cfgP ConnectionStyle.straight).2.map FaceData.nodeIds :=
  ⟨by norm_num [cfgP], by norm_num, by norm_num, by norm_num [cfgP], cfgP_deg_cross,
    degenerate_triple_becomes_face cfgP ConnectionStyle.straight 0 1 2
      (by norm_num [cfgP]) (by norm_num) (by norm_num) (by norm_num [cfgP]) cfgP_deg_cross⟩

/-- JS default string comparison (lexicographic by code unit), spelled on
the character lists so that it evaluates on literals. -/
def charListLe : List Char → List Char → Bool
  | [], _ => true
  | _ :: _, [] => false
  | a :: as, b :: bs =>
    if a.toNat < b.toNat then true
    else if b.toNat < a.toNat then false
    else charListLe as bs

/-- `s <= t` in JS string order. -/
def strLe (s t : String) : Bool := charListLe s.data t.data

/-- `[a, b].sort()` for two strings. -/
def strSortPair (a b : String) : String × String := if strLe a b then (a, b) else (b, a)

/-- Insertion into a string-sorted list. -/
def strInsert (a : String) : List String → List String
  | [] => [a]
  | b :: l => if strLe a b then a :: b :: l else b :: strInsert a l

/-- `ids.sort()` for a string list (JS sort is stable and the comparator is
a total order, so any sorted permutation — insertion sort here — is the
result). -/
def strSort : List String → List String
  | [] => []
  | a :: l => strInsert a (strSort l)

lemma charListLe_total (as bs : List Char) :
    charListLe as bs = true ∨ charListLe bs as = true := by
  induction as generalizing bs with
  | nil => left; rfl
  | cons a as ih =>
    cases bs with
    | nil => right; rfl
    | cons b bs =>
      by_cases h1 : a.toNat < b.toNat
      · left; simp [charListLe, h1]
      · by_cases h2 : b.toNat < a.toNat
        · right; simp [charListLe, h2]
        · rcases ih bs with h | h
          · left; simpa [charListLe, h1, h2] using h
          · right; simpa [charListLe, h1, h2] using h

lemma charListLe_antisymm (as bs : List Char) (h1 : charListLe as bs = true)
    (h2 : charListLe bs as = true) : as = bs := by
  induction as generalizing bs with
  | nil =>
    cases bs with
    | nil => rfl
    | cons b bs => simp [charListLe] at h2
  | cons a as ih =>
    cases bs with
    | nil => simp [charListLe] at h1
    | cons b bs =>
      by_cases hab : a.toNat < b.toNat
      · simp [charListLe, hab, Nat.lt_asymm hab] at h2
      · by_cases hba : b.toNat < a.toNat
        · simp [charListLe, hab, hba] at h1
        · have hnat : a.toNat = b.toNat :=
            Nat.le_antisymm (Nat.le_of_not_lt hba) (Nat.le_of_not_lt hab)
          have hval : a = b := by
            exact_mod_cast Char.ofNat_toNat a ▸ Char.ofNat_toNat b ▸ congrArg Char.ofNat hnat
          subst hval
          simp only [charListLe, if_neg hab, if_neg hab] at h1 h2
          rw [ih bs h1 h2]

lemma strLe_total (s t : String) : strLe s t = true ∨ strLe t s = true :=
  charListLe_total s.data t.data

lemma strLe_antisymm {s t : String} (h1 : strLe s t = true) (h2 : strLe t s = true) :
    s = t := by
  apply String.ext
  exact charListLe_antisymm s.data t.data h1 h2

lemma strSortPair_symm (a b : String) : strSortPair a b = strSortPair b a := by
  by_cases hab : strLe a b = true
  · by_cases hba : strLe b a = true
    · have : a = b := strLe_antisymm hab hba
      subst this
      rfl
    · simp [strSortPair, hab, hba]
  · rcases strLe_total a b with h | h
    · exact absurd h hab
    · simp [strSortPair, hab, h]

lemma strSortPair_cases (a b : String) :
    strSortPair a b = (a, b) ∨ strSortPair a b = (b, a) := by
  unfold strSortPair
  split
  · exact Or.inl rfl
  · exact Or.inr rfl

/-- No `'-'` occurs in the string (the well-formedness the string-concat
dedup keys need to be collision-free). -/
def dashFree (s : String) : Prop := ('-' : Char) ∉ s.data

lemma list_sep_inj {α} {x : α} :
    ∀ {l1 l3 : List α} {l2 l4 : List α}, x ∉ l1 → x ∉ l3 →
      l1 ++ x :: l2 = l3 ++ x :: l4 → l1 = l3 ∧ l2 = l4 := by
  intro l1
  induction l1 with
  | nil =>
    intro l3 l2 l4 _ h3 h
    cases l3 with
    | nil => simpa using h
    | cons c cs =>
      rw [List.nil_append, List.cons_append] at h
      injection h with h1 _
      exact absurd (h1 ▸ List.mem_cons_self c cs) h3
  | cons a as ih =>
    intro l3 l2 l4 h1 h3 h
    cases l3 with
    | nil =>
      rw [List.nil_append, List.cons_append] at h
      injection h with ha _
      exact absurd (ha ▸ List.mem_cons_self a as) h1
    | cons c cs =>
      rw [List.cons_append, List.cons_append] at h
      injection h with ha htail
      subst ha
      obtain ⟨he, hf⟩ := ih (fun hm => h1 (List.mem_cons_of_mem _ hm))
        (fun hm => h3 (List.mem_cons_of_mem _ hm)) htail
      exact ⟨by rw [he], hf⟩

lemma dash_key_inj {a b c d : String} (ha : dashFree a) (hc : dashFree c)
    (h : a ++ "-" ++ b = c ++ "-" ++ d) : a = c ∧ b = d := by
  have hdata : a.data ++ '-' :: b.data = c.data ++ '-' :: d.data := by
    have := congrArg String.data h
    simpa [String.data_append] using this
  obtain ⟨h1, h2⟩ := list_sep_inj ha hc hdata
  exact ⟨String.ext h1, String.ext h2⟩

/-- One candidate `{id, dist}` entry of the k-NN neighbor selection. -/
structure NbrEntry where
  id : String
  dist : ℝ

/-- Stable ascending insertion by distance. -/
def nbrInsert (e : NbrEntry) : List NbrEntry → List NbrEntry
  | [] => [e]
  | b :: l => if e.dist ≤ b.dist then e :: b :: l else b :: nbrInsert e l

/-- The source's `sort((a, b) => a.dist - b.dist)`: a stable ascending
sort by distance (insertion sort here, which is stable and agrees with any
stable comparison sort). -/
def nbrSort : List NbrEntry → List NbrEntry
  | [] => []
  | a :: l => nbrInsert a (nbrSort l)

/-- `nodes.find(n => n.id === x)` — the source asserts success with `!`;
an impossible junk node stands for the asserted-away failure. -/
def findNode (nodes : List NodeData) (x : String) : NodeData :=
  (nodes.find? fun n => decide (n.id = x)).getD ⟨"", Vec3.zero, ""⟩

/-- `Math.max(1, Math.min(nodes.length - 1, connectionNeighbors))`. -/
def effectiveNeighbors (n k : ℕ) : ℕ := max 1 (min (n - 1) k)

/-- The sorted, truncated neighbor list of node `i`: all other nodes with
their distances, sorted ascending, first `eff` kept. -/
def neighborsOf (nodes : List NodeData) (i eff : ℕ) : List NbrEntry :=
  (nbrSort (((List.range nodes.length).filter fun j => ¬ j = i).map fun j =>
    ⟨(nd nodes j).id, Vec3.distanceTo (nd nodes i).pos (nd nodes j).pos⟩)).take eff

/-- The running state of `computeNearestNeighborGraph`'s first phase: the
`symmetricAdj` map as the list of directed pairs it contains, the
`uniqueEdgeKeys` set, and the edge list. -/
structure KnnState where
  adj : List (String × String)
  keys : List String
  edges : List EdgeData

/-- Processing one selected neighbor entry of `nodeA`: record both
adjacency directions, then push the edge unless its string key
`id1 + "-" + id2` (ids string-sorted) was already seen. -/
def knnVisit (nodes : List NodeData) (style : ConnectionStyle) (nodeA : NodeData)
    (st : KnnState) (e : NbrEntry) : KnnState :=
  let nodeB := findNode nodes e.id
  let adj := st.adj ++ [(nodeA.id, nodeB.id), (nodeB.id, nodeA.id)]
  let p := strSortPair nodeA.id nodeB.id
  let key := p.1 ++ "-" ++ p.2
  let newEdge : EdgeData :=
    { start := nodeA.pos
      stop := nodeB.pos
      mid := getEdgeControlPoint nodeA.pos nodeB.pos style
      color := nodeA.color
      nodeAId := p.1
      nodeBId := p.2 }
  if key ∈ st.keys then { st with adj := adj }
  else { adj := adj, keys := st.keys ++ [key], edges := st.edges ++ [newEdge] }

/-- Phase one of `computeNearestNeighborGraph` over all nodes. -/
def knnState (nodes : List NodeData) (style : ConnectionStyle) (k : ℕ) : KnnState :=
  (List.range nodes.length).foldl
    (fun st i =>
      (neighborsOf nodes i (effectiveNeighbors nodes.length k)).foldl
        (knnVisit nodes style (nd nodes i)) st)
    ⟨[], [], []⟩

/-- The k-NN edge list. -/
def kNNEdges (nodes : List NodeData) (style : ConnectionStyle) (k : ℕ) : List EdgeData :=
  (knnState nodes style k).edges

/-- `symmetricAdj.get(x)?.has(y)`, as membership of the directed pair. -/
def adjHas (adj : List (String × String)) (x y : String) : Bool :=
  decide ((x, y) ∈ adj)

/-- The face key `ids.join('-')` of a sorted id triple. -/
def faceKey3 (a b c : String) : String := a ++ "-" ++ b ++ "-" ++ c

/-- The face record the k-NN face phase pushes for the string-sorted triple
`(x, y, z)` (each node looked up by id). -/
def mkKnnFace (nodes : List NodeData) (style : ConnectionStyle) (x y z : String) :
    FaceData :=
  { nodeIds := (x, y, z)
    positions := ((findNode nodes x).pos, (findNode nodes y).pos, (findNode nodes z).pos)
    controlPoints :=
      (getEdgeControlPoint (findNode nodes x).pos (findNode nodes y).pos style,
        getEdgeControlPoint (findNode nodes y).pos (findNode nodes z).pos style,
        getEdgeControlPoint (findNode nodes z).pos (findNode nodes x).pos style)
    colors := ((findNode nodes x).color, (findNode nodes y).color, (findNode nodes z).color) }

/-- One step of the k-NN face phase for one edge and one candidate third
node `C`: when `C` differs from both endpoints and is adjacent to both,
emit the string-sorted triple once (keyed by `ids.join('-')`). -/
def knnFaceVisit (nodes : List NodeData) (style : ConnectionStyle)
    (adj : List (String × String)) (edge : EdgeData)
    (acc : List String × List FaceData) (nodeC : NodeData) :
    List String × List FaceData :=
  if nodeC.id ≠ edge.nodeAId ∧ nodeC.id ≠ edge.nodeBId ∧
      adjHas adj edge.nodeAId nodeC.id = true ∧ adjHas adj edge.nodeBId nodeC.id = true then
    let ids := strSort [edge.nodeAId, edge.nodeBId, nodeC.id]
    let x := ids.getD 0 ""
    let y := ids.getD 1 ""
    let z := ids.getD 2 ""
    if faceKey3 x y z ∈ acc.1 then acc
    else (acc.1 ++ [faceKey3 x y z], acc.2 ++ [mkKnnFace nodes style x y z])
  else acc

/-- Phase two of `computeNearestNeighborGraph`: faces inferred from the
edge list and the symmetric adjacency. -/
def kNNFaces (nodes : List NodeData) (style : ConnectionStyle) (k : ℕ) : List FaceData :=
  ((kNNEdges nodes style k).foldl
    (fun acc edge => nodes.foldl (knnFaceVisit nodes style (knnState nodes style k).adj edge) acc)
    ([], [])).2

/-- `computeNearestNeighborGraph`. -/
def computeNearestNeighborGraph (nodes : List NodeData) (style : ConnectionStyle)
    (k : ℕ) : List EdgeData × List FaceData :=
  (kNNEdges nodes style k, kNNFaces nodes style k)

/-- `useGraphData`: no connectivity for style `none`; the convex hull in
`auto` mode; the k-NN graph otherwise. -/
def buildGraph (nodes : List NodeData) (style : ConnectionStyle) (mode : ConnectionMode)
    (k : ℕ) : List EdgeData × List FaceData :=
  if style = ConnectionStyle.none then ([], [])
  else if mode = ConnectionMode.auto then computeConvexHull nodes style
  else computeNearestNeighborGraph nodes style k

/-- The canonical string key of an unordered id pair. -/
def pairKey (x y : String) : String := (strSortPair x y).1 ++ "-" ++ (strSortPair x y).2

/-- The edge record the k-NN phase pushes when the visiting node has id
`a` and the visited neighbor has id `b` (with distinct ids each lookup
returns the node itself). -/
def mkKnnEdge (nodes : List NodeData) (style : ConnectionStyle) (a b : String) : EdgeData :=
  { start := (findNode nodes a).pos
    stop := (findNode nodes b).pos
    mid := getEdgeControlPoint (findNode nodes a).pos (findNode nodes b).pos style
    color := (findNode nodes a).color
    nodeAId := (strSortPair a b).1
    nodeBId := (strSortPair a b).2 }

/-- The invariant phase one of the k-NN builder maintains, relative to the
directed id pairs processed so far: the adjacency list is exactly the
processed pairs in both directions, the keys are duplicate-free and are
exactly the edges' keys, keys correspond to processed pairs, and every
edge is the canonical edge of some processed pair. -/
def KnnInv (nodes : List NodeData) (style : ConnectionStyle) (st : KnnState)
    (ps : List (String × String)) : Prop :=
  st.adj = ps.flatMap (fun p => [(p.1, p.2), (p.2, p.1)]) ∧
  st.keys.Nodup ∧
  st.edges.map (fun e => e.nodeAId ++ "-" ++ e.nodeBId) = st.keys ∧
  (∀ s : String, s ∈ st.keys ↔ ∃ p ∈ ps, pairKey p.1 p.2 = s) ∧
  (∀ e ∈ st.edges, ∃ p ∈ ps, e = mkKnnEdge nodes style p.1 p.2)

/-- Directed pairs drawn from distinct node ids. -/
def PairsGood (nodes : List NodeData) (ps : List (String × String)) : Prop :=
  ∀ p ∈ ps, p.1 ∈ nodes.map NodeData.id ∧ p.2 ∈ nodes.map NodeData.id ∧ p.1 ≠ p.2

lemma pairKey_symm (x y : String) : pairKey x y = pairKey y x := by
  unfold pairKey
  rw [strSortPair_symm]

lemma findNode_id {nodes : List NodeData} {x : String}
    (hx : x ∈ nodes.map NodeData.id) : (findNode nodes x).id = x := by
  obtain ⟨n, hn, hid⟩ := List.mem_map.mp hx
  unfold findNode
  have hsome : (nodes.find? fun m => decide (m.id = x)).isSome := by
    rw [List.find?_isSome]
    exact ⟨n, hn, by simp [hid]⟩
  obtain ⟨a, ha⟩ := Option.isSome_iff_exists.mp hsome
  rw [ha]
  have := List.find?_some ha
  simpa using this

lemma findNode_mem {nodes : List NodeData} {x : String}
    (hx : x ∈ nodes.map NodeData.id) : findNode nodes x ∈ nodes := by
  obtain ⟨n, hn, hid⟩ := List.mem_map.mp hx
  unfold findNode
  have hsome : (nodes.find? fun m => decide (m.id = x)).isSome := by
    rw [List.find?_isSome]
    exact ⟨n, hn, by simp [hid]⟩
  obtain ⟨a, ha⟩ := Option.isSome_iff_exists.mp hsome
  rw [ha]
  exact List.mem_of_find?_eq_some ha

lemma findNode_eq_of_nodup {nodes : List NodeData}
    (hnodup : (nodes.map NodeData.id).Nodup) {n : NodeData} (hn : n ∈ nodes) :
    findNode nodes n.id = n := by
  have hid : (findNode nodes n.id).id = n.id :=
    findNode_id (List.mem_map.mpr ⟨n, hn, rfl⟩)
  have hmem : findNode nodes n.id ∈ nodes :=
    findNode_mem (List.mem_map.mpr ⟨n, hn, rfl⟩)
  exact List.inj_on_of_nodup_map hnodup hmem hn hid

lemma nd_mem {nodes : List NodeData} {i : ℕ} (hi : i < nodes.length) :
    nd nodes i ∈ nodes := by
  unfold nd
  rw [List.getD_eq_getElem?_getD, List.getElem?_eq_getElem hi]
  exact List.getElem_mem hi

lemma nd_id_mem {nodes : List NodeData} {i : ℕ} (hi : i < nodes.length) :
    (nd nodes i).id ∈ nodes.map NodeData.id :=
  List.mem_map.mpr ⟨nd nodes i, nd_mem hi, rfl⟩

lemma nd_id_ne {nodes : List NodeData} (hnodup : (nodes.map NodeData.id).Nodup)
    {i j : ℕ} (hi : i < nodes.length) (hj : j < nodes.length) (hij : i ≠ j) :
    (nd nodes i).id ≠ (nd nodes j).id := by
  intro h
  apply hij
  have hi' : i < (nodes.map NodeData.id).length := by simpa using hi
  have hj' : j < (nodes.map NodeData.id).length := by simpa using hj
  have hgi : (nodes.map NodeData.id).get ⟨i, hi'⟩ = (nd nodes i).id := by
    simp [nd, List.getD_eq_getElem?_getD, List.getElem?_eq_getElem hi]
  have hgj : (nodes.map NodeData.id).get ⟨j, hj'⟩ = (nd nodes j).id := by
    simp [nd, List.getD_eq_getElem?_getD, List.getElem?_eq_getElem hj]
  have : (⟨i, hi'⟩ : Fin (nodes.map NodeData.id).length) = ⟨j, hj'⟩ := by
    apply List.Nodup.get_inj_iff hnodup |>.mp
    rw [hgi, hgj, h]
  simpa using congrArg Fin.val this

lemma nbrInsert_perm (e : NbrEntry) (l : List NbrEntry) : List.Perm (nbrInsert e l) (e :: l) := by
  induction l with
  | nil => rfl
  | cons b bs ih =>
    unfold nbrInsert
    split
    · rfl
    · exact (List.Perm.cons b ih).trans (List.Perm.swap e b bs)

lemma nbrSort_perm (l : List NbrEntry) : List.Perm (nbrSort l) l := by
  induction l with
  | nil => rfl
  | cons a as ih =>
    unfold nbrSort
    exact (nbrInsert_perm a (nbrSort as)).trans (List.Perm.cons a ih)

lemma strInsert_perm (a : String) (l : List String) : List.Perm (strInsert a l) (a :: l) := by
  induction l with
  | nil => rfl
  | cons b bs ih =>
    unfold strInsert
    split
    · rfl
    · exact (List.Perm.cons b ih).trans (List.Perm.swap a b bs)

lemma strSort_perm (l : List String) : List.Perm (strSort l) l := by
  induction l with
  | nil => rfl
  | cons a as ih =>
    unfold strSort
    exact (strInsert_perm a (strSort as)).trans (List.Perm.cons a ih)

lemma mem_neighborsOf {nodes : List NodeData} {i eff : ℕ} {e : NbrEntry}
    (he : e ∈ neighborsOf nodes i eff) :
    ∃ j, j < nodes.length ∧ j ≠ i ∧ e.id = (nd nodes j).id := by
  unfold neighborsOf at he
  have h1 : e ∈ nbrSort (((List.range nodes.length).filter fun j => ¬ j = i).map fun j =>
      ⟨(nd nodes j).id, Vec3.distanceTo (nd nodes i).pos (nd nodes j).pos⟩) :=
    List.mem_of_mem_take he
  have h2 := (nbrSort_perm _).mem_iff.mp h1
  obtain ⟨j, hj, hje⟩ := List.mem_map.mp h2
  have hj' := List.mem_filter.mp hj
  refine ⟨j, List.mem_range.mp hj'.1, by simpa using hj'.2, ?_⟩
  rw [← hje]

lemma knnVisit_eq {nodes : List NodeData} {style : ConnectionStyle}
    {nodeA : NodeData} (hAfind : findNode nodes nodeA.id = nodeA)
    {e : NbrEntry} (hBid : (findNode nodes e.id).id = e.id)
    (st : KnnState) :
    knnVisit nodes style nodeA st e =
      if pairKey nodeA.id e.id ∈ st.keys then
        { st with adj := st.adj ++ [(nodeA.id, e.id), (e.id, nodeA.id)] }
      else
        { adj := st.adj ++ [(nodeA.id, e.id), (e.id, nodeA.id)]
          keys := st.keys ++ [pairKey nodeA.id e.id]
          edges := st.edges ++ [mkKnnEdge nodes style nodeA.id e.id] } := by
  unfold knnVisit mkKnnEdge pairKey
  simp only [hBid, hAfind]

lemma knnVisit_inv {nodes : List NodeData} {style : ConnectionStyle}
    (hnodup : (nodes.map NodeData.id).Nodup)
    {nodeA : NodeData} (hA : nodeA ∈ nodes)
    {e : NbrEntry} (heB : e.id ∈ nodes.map NodeData.id)
    {st : KnnState} {ps : List (String × String)}
    (hinv : KnnInv nodes style st ps) :
    KnnInv nodes style (knnVisit nodes style nodeA st e) (ps ++ [(nodeA.id, e.id)]) := by
  obtain ⟨hadj, hkeys, hmap, hiff, hedges⟩ := hinv
  have hBid : (findNode nodes e.id).id = e.id := findNode_id heB
  have hAfind : findNode nodes nodeA.id = nodeA := findNode_eq_of_nodup hnodup hA
  rw [knnVisit_eq hAfind hBid]
  have hadj' : st.adj ++ [(nodeA.id, e.id), (e.id, nodeA.id)] =
      (ps ++ [(nodeA.id, e.id)]).flatMap fun p => [(p.1, p.2), (p.2, p.1)] := by
    rw [List.flatMap_append, hadj]
    rfl
  by_cases hk : pairKey nodeA.id e.id ∈ st.keys
  · rw [if_pos hk]
    refine ⟨hadj', hkeys, hmap, ?_, ?_⟩
    · intro s
      constructor
      · intro hs
        obtain ⟨p, hp, hpk⟩ := (hiff s).mp hs
        exact ⟨p, List.mem_append_left _ hp, hpk⟩
      · rintro ⟨p, hp, hpk⟩
        rcases List.mem_append.mp hp with h | h
        · exact (hiff s).mpr ⟨p, h, hpk⟩
        · simp only [List.mem_singleton] at h
          subst h
          exact hpk ▸ hk
    · intro e' he'
      obtain ⟨p, hp, hpe⟩ := hedges e' he'
      exact ⟨p, List.mem_append_left _ hp, hpe⟩
  · rw [if_neg hk]
    refine ⟨hadj', ?_, ?_, ?_, ?_⟩
    · simp [List.nodup_append, hkeys, hk]
    · rw [List.map_append, hmap]
      rfl
    · intro s
      constructor
      · intro hs
        rcases List.mem_append.mp hs with hs | hs
        · obtain ⟨p, hp, hpk⟩ := (hiff s).mp hs
          exact ⟨p, List.mem_append_left _ hp, hpk⟩
        · refine ⟨(nodeA.id, e.id), List.mem_append_right _ (List.mem_singleton_self _), ?_⟩
          rw [List.mem_singleton] at hs
          exact hs.symm
      · rintro ⟨p, hp, hpk⟩
        rcases List.mem_append.mp hp with h | h
        · exact List.mem_append_left _ ((hiff s).mpr ⟨p, h, hpk⟩)
        · rw [List.mem_singleton] at h
          subst h
          exact List.mem_append_right _ (List.mem_singleton.mpr hpk.symm)
    · intro e' he'
      rcases List.mem_append.mp he' with h | h
      · obtain ⟨p, hp, hpe⟩ := hedges e' h
        exact ⟨p, List.mem_append_left _ hp, hpe⟩
      · simp only [List.mem_singleton] at h
        exact ⟨(nodeA.id, e.id), List.mem_append_right _ (List.mem_singleton_self _), h⟩

lemma knnInnerFold_inv {nodes : List NodeData} {style : ConnectionStyle}
    (hnodup : (nodes.map NodeData.id).Nodup)
    {nodeA : NodeData} (hA : nodeA ∈ nodes)
    (entries : List NbrEntry)
    (hents : ∀ x ∈ entries, x.id ∈ nodes.map NodeData.id ∧ x.id ≠ nodeA.id)
    {st : KnnState} {ps : List (String × String)}
    (hinv : KnnInv nodes style st ps) (hps : PairsGood nodes ps) :
    KnnInv nodes style (entries.foldl (knnVisit nodes style nodeA) st)
        (ps ++ entries.map fun x => (nodeA.id, x.id)) ∧
      PairsGood nodes (ps ++ entries.map fun x => (nodeA.id, x.id)) := by
  induction entries generalizing st ps with
  | nil => simpa using ⟨hinv, hps⟩
  | cons x xs ih =>
    have hx := hents x (List.mem_cons_self x xs)
    have h1 : KnnInv nodes style (knnVisit nodes style nodeA st x)
        (ps ++ [(nodeA.id, x.id)]) :=
      knnVisit_inv hnodup hA hx.1 hinv
    have hps1 : PairsGood nodes (ps ++ [(nodeA.id, x.id)]) := by
      intro p hp
      rcases List.mem_append.mp hp with h | h
      · exact hps p h
      · simp only [List.mem_singleton] at h
        subst h
        exact ⟨List.mem_map.mpr ⟨nodeA, hA, rfl⟩, hx.1, fun hcontra => hx.2 hcontra.symm⟩
    have := ih (fun y hy => hents y (List.mem_cons_of_mem x hy)) h1 hps1
    simpa [List.append_assoc] using this

/-- The directed pairs one outer-loop index contributes. -/
def pairsOfIdx (nodes : List NodeData) (k i : ℕ) : List (String × String) :=
  (neighborsOf nodes i (effectiveNeighbors nodes.length k)).map
    fun e => ((nd nodes i).id, e.id)

/-- All directed pairs phase one processes, in order. -/
def processedPairs (nodes : List NodeData) (k : ℕ) : List (String × String) :=
  (List.range nodes.length).flatMap (pairsOfIdx nodes k)

lemma knnOuterFold_inv {nodes : List NodeData} {style : ConnectionStyle} {k : ℕ}
    (hnodup : (nodes.map NodeData.id).Nodup)
    (idxs : List ℕ) (hidx : ∀ i ∈ idxs, i < nodes.length)
    {st : KnnState} {ps : List (String × String)}
    (hinv : KnnInv nodes style st ps) (hps : PairsGood nodes ps) :
    KnnInv nodes style
        (idxs.foldl
          (fun st i =>
            (neighborsOf nodes i (effectiveNeighbors nodes.length k)).foldl
              (knnVisit nodes style (nd nodes i)) st)
          st)
        (ps ++ idxs.flatMap (pairsOfIdx nodes k)) ∧
      PairsGood nodes (ps ++ idxs.flatMap (pairsOfIdx nodes k)) := by
  induction idxs generalizing st ps with
  | nil => simpa using ⟨hinv, hps⟩
  | cons i is ih =>
    have hi : i < nodes.length := hidx i (List.mem_cons_self i is)
    have hents : ∀ x ∈ neighborsOf nodes i (effectiveNeighbors nodes.length k),
        x.id ∈ nodes.map NodeData.id ∧ x.id ≠ (nd nodes i).id := by
      intro x hx
      obtain ⟨j, hj, hji, hxid⟩ := mem_neighborsOf hx
      exact ⟨hxid ▸ nd_id_mem hj, hxid ▸ nd_id_ne hnodup hj hi hji⟩
    obtain ⟨h1, hps1⟩ := knnInnerFold_inv hnodup (nd_mem hi) _ hents hinv hps
    have := ih (fun j hj => hidx j (List.mem_cons_of_mem i hj)) h1 hps1
    simpa [pairsOfIdx, List.append_assoc] using this

lemma knnState_inv {nodes : List NodeData} {style : ConnectionStyle} {k : ℕ}
    (hnodup : (nodes.map NodeData.id).Nodup) :
    KnnInv nodes style (knnState nodes style k) (processedPairs nodes k) ∧
      PairsGood nodes (processedPairs nodes k) := by
  have hempty : KnnInv nodes style ⟨[], [], []⟩ [] :=
    ⟨rfl, List.nodup_nil, rfl, by simp, by simp⟩
  have hgood : PairsGood nodes ([] : List (String × String)) := by
    intro p hp
    simp at hp
  have := @knnOuterFold_inv nodes style k hnodup (List.range nodes.length)
    (fun i hi => List.mem_range.mp hi) ⟨[], [], []⟩ [] hempty hgood
  simpa [knnState, processedPairs] using this

lemma filter_ne_range_length {n i : ℕ} (hi : i < n) :
    ((List.range n).filter fun j => ¬ j = i).length = n - 1 := by
  have h1 : ((List.range n).filter fun j => ¬ j = i) = (List.range n).erase i := by
    rw [List.Nodup.erase_eq_filter (List.nodup_range n) i]
    apply List.filter_congr
    intro x _
    by_cases hx : x = i
    · subst hx
      simp
    · have hix : ¬ i = x := fun h => hx h.symm
      simp [bne, hx, hix]
  rw [h1, List.length_erase_of_mem (List.mem_range.mpr hi), List.length_range]

lemma processedPairs_cover {nodes : List NodeData} {k i j : ℕ}
    (hk : nodes.length - 1 ≤ k)
    (hi : i < nodes.length) (hj : j < nodes.length) (hij : j ≠ i) :
    ((nd nodes i).id, (nd nodes j).id) ∈ processedPairs nodes k := by
  unfold processedPairs
  refine List.mem_flatMap.mpr ⟨i, List.mem_range.mpr hi, ?_⟩
  unfold pairsOfIdx
  refine List.mem_map.mpr
    ⟨⟨(nd nodes j).id, Vec3.distanceTo (nd nodes i).pos (nd nodes j).pos⟩, ?_, rfl⟩
  unfold neighborsOf
  have hsortlen :
      (nbrSort (((List.range nodes.length).filter fun m => ¬ m = i).map fun m =>
        (⟨(nd nodes m).id, Vec3.distanceTo (nd nodes i).pos (nd nodes m).pos⟩ :
          NbrEntry))).length = nodes.length - 1 := by
    rw [(nbrSort_perm _).length_eq, List.length_map, filter_ne_range_length hi]
  have heff : nodes.length - 1 ≤ effectiveNeighbors nodes.length k := by
    unfold effectiveNeighbors
    rw [min_eq_left hk]
    exact le_max_right 1 _
  rw [List.take_of_length_le (by rw [hsortlen]; exact heff)]
  apply (nbrSort_perm _).mem_iff.mpr
  refine List.mem_map.mpr ⟨j, ?_, rfl⟩
  exact List.mem_filter.mpr ⟨List.mem_range.mpr hj, by simpa using hij⟩

lemma dashFree_of_mem_ids {nodes : List NodeData} {x : String}
    (hdash : ∀ n ∈ nodes, dashFree n.id) (hx : x ∈ nodes.map NodeData.id) :
    dashFree x := by
  obtain ⟨n, hn, rfl⟩ := List.mem_map.mp hx
  exact hdash n hn

lemma dashFree_strSortPair_fst {x y : String} (hx : dashFree x) (hy : dashFree y) :
    dashFree (strSortPair x y).1 := by
  rcases strSortPair_cases x y with h | h <;> rw [h] <;> assumption

lemma dashFree_strSortPair_snd {x y : String} (hx : dashFree x) (hy : dashFree y) :
    dashFree (strSortPair x y).2 := by
  rcases strSortPair_cases x y with h | h <;> rw [h] <;> assumption

lemma countP_eq_one_of_nodup {α : Type} [DecidableEq α] {l : List α}
    (hn : l.Nodup) {a : α} (ha : a ∈ l) :
    l.countP (fun s => decide (s = a)) = 1 := by
  induction l with
  | nil => simp at ha
  | cons b bs ih =>
    have hnd := List.nodup_cons.mp hn
    rw [List.countP_cons]
    rcases List.mem_cons.mp ha with h | ha'
    · have hzero : bs.countP (fun s => decide (s = a)) = 0 := by
        rw [List.countP_eq_zero]
        intro s hs
        simp only [decide_eq_true_eq]
        intro hsa
        rw [hsa, h] at hs
        exact hnd.1 hs
      rw [hzero]
      simp [h.symm]
    · have hb : b ≠ a := fun hba => hnd.1 (hba ▸ ha')
      rw [ih hnd.2 ha']
      simp [hb]

/-- Claim C5 (amended): the requested k-NN neighbor count is clamped to
`[1, N-1]`, so with N ≥ 2 nodes at distinct positions and any requested
count k ≥ N-1, the edge set is the complete graph: every unordered pair
of distinct node ids appears as exactly one edge (in its string-sorted
orientation), and every edge joins two distinct ids of the list. As the
counterexample shows, this needs the ids to be free of the `'-'`
character, which the string-concatenation dedup keys silently assume. -/
theorem knn_complete_graph (nodes : List NodeData) (style : ConnectionStyle) (k : ℕ)
    (hn : 2 ≤ nodes.length)
    (hnodup : (nodes.map NodeData.id).Nodup)
    (hdash : ∀ n ∈ nodes, dashFree n.id)
    (hpos : nodes.Pairwise fun n m => n.pos ≠ m.pos)
    (hk : nodes.length - 1 ≤ k) :
    (∀ x y : String, x ∈ nodes.map NodeData.id → y ∈ nodes.map NodeData.id → x ≠ y →
      (kNNEdges nodes style k).countP
        (fun e => decide (e.nodeAId = (strSortPair x y).1 ∧
          e.nodeBId = (strSortPair x y).2)) = 1) ∧
    (∀ e ∈ kNNEdges nodes style k,
      e.nodeAId ∈ nodes.map NodeData.id ∧ e.nodeBId ∈ nodes.map NodeData.id ∧
        e.nodeAId ≠ e.nodeBId) := by
  obtain ⟨⟨hadj, hkeys, hmap, hiff, hedges⟩, hgood⟩ :=
    @knnState_inv nodes style k hnodup
  constructor
  · intro x y hx hy hxy
    obtain ⟨i, hi, hxi⟩ := List.mem_iff_getElem.mp hx
    obtain ⟨j, hj, hyj⟩ := List.mem_iff_getElem.mp hy
    rw [List.getElem_map] at hxi hyj
    have hi' : i < nodes.length := by simpa using hi
    have hj' : j < nodes.length := by simpa using hj
    have hxi' : (nd nodes i).id = x := by
      rw [← hxi]
      simp [nd, List.getD_eq_getElem?_getD, List.getElem?_eq_getElem hi']
    have hyj' : (nd nodes j).id = y := by
      rw [← hyj]
      simp [nd, List.getD_eq_getElem?_getD, List.getElem?_eq_getElem hj']
    have hij : j ≠ i := by
      intro h
      subst h
      exact hxy (hxi' ▸ hyj' ▸ rfl)
    have hcov : (x, y) ∈ processedPairs nodes k := by
      rw [← hxi', ← hyj']
      exact processedPairs_cover hk hi' hj' hij
    have hkey : pairKey x y ∈ (knnState nodes style k).keys :=
      (hiff (pairKey x y)).mpr ⟨(x, y), hcov, rfl⟩
    have hxdash : dashFree x := dashFree_of_mem_ids hdash hx
    have hydash : dashFree y := dashFree_of_mem_ids hdash hy
    have hcong : ∀ e ∈ kNNEdges nodes style k,
        (decide (e.nodeAId = (strSortPair x y).1 ∧ e.nodeBId = (strSortPair x y).2) = true) ↔
          (decide ((e.nodeAId ++ "-" ++ e.nodeBId) = pairKey x y) = true) := by
      intro e he
      obtain ⟨q, hq, rfl⟩ := hedges e he
      obtain ⟨hq1, hq2, hq3⟩ := hgood q hq
      simp only [decide_eq_true_eq]
      constructor
      · rintro ⟨h1, h2⟩
        rw [mkKnnEdge] at h1 h2 ⊢
        dsimp only at h1 h2 ⊢
        rw [h1, h2]
        rfl
      · intro h
        rw [mkKnnEdge] at h ⊢
        dsimp only at h ⊢
        have hq1d : dashFree (strSortPair q.1 q.2).1 :=
          dashFree_strSortPair_fst (dashFree_of_mem_ids hdash hq1)
            (dashFree_of_mem_ids hdash hq2)
        have hxyd : dashFree (strSortPair x y).1 :=
          dashFree_strSortPair_fst hxdash hydash
        have := dash_key_inj hq1d hxyd h
        exact ⟨this.1, this.2⟩
    have hstep1 : (kNNEdges nodes style k).countP
        (fun e => decide (e.nodeAId = (strSortPair x y).1 ∧
          e.nodeBId = (strSortPair x y).2)) =
        (kNNEdges nodes style k).countP
          (fun e => decide ((e.nodeAId ++ "-" ++ e.nodeBId) = pairKey x y)) :=
      List.countP_congr hcong
    have hstep2 : (kNNEdges nodes style k).countP
        (fun e => decide ((e.nodeAId ++ "-" ++ e.nodeBId) = pairKey x y)) =
        ((kNNEdges nodes style k).map fun e => e.nodeAId ++ "-" ++ e.nodeBId).countP
          (fun s => decide (s = pairKey x y)) := by
      rw [List.countP_map]
      rfl
    rw [hstep1, hstep2,
      show ((kNNEdges nodes style k).map fun e => e.nodeAId ++ "-" ++ e.nodeBId) =
        (knnState nodes style k).keys from hmap]
    exact countP_eq_one_of_nodup hkeys hkey
  · intro e he
    obtain ⟨q, hq, rfl⟩ := hedges e he
    obtain ⟨hq1, hq2, hq3⟩ := hgood q hq
    rw [mkKnnEdge]
    dsimp only
    rcases strSortPair_cases q.1 q.2 with h | h <;> rw [h]
    · exact ⟨hq1, hq2, hq3⟩
    · exact ⟨hq2, hq1, fun hc => hq3 hc.symm⟩

/-- A concrete two-node list with dash-free ids for the C5 witness. -/
def nodeW0 : NodeData := ⟨"x", ⟨0, 0, 0⟩, "#w0"⟩

/-- The second witness node. -/
def nodeW1 : NodeData := ⟨"y", ⟨1, 0, 0⟩, "#w1"⟩

/-- The two-node witness list. -/
def cfgW : List NodeData := [nodeW0, nodeW1]

/-- Witness for the amended C5: two nodes, any requested count ≥ 1 —
the single unordered pair appears as exactly one edge. -/
theorem knn_complete_graph_witness :
    2 ≤ cfgW.length ∧ (cfgW.map NodeData.id).Nodup ∧ (∀ n ∈ cfgW, dashFree n.id) ∧
      cfgW.Pairwise (fun n m => n.pos ≠ m.pos) ∧ cfgW.length - 1 ≤ 5 ∧
      (kNNEdges cfgW ConnectionStyle.straight 5).countP
        (fun e => decide (e.nodeAId = (strSortPair "x" "y").1 ∧
          e.nodeBId = (strSortPair "x" "y").2)) = 1 := by
  have h1 : 2 ≤ cfgW.length := by norm_num [cfgW]
  have h2 : (cfgW.map NodeData.id).Nodup := by
    rw [show cfgW.map NodeData.id = ["x", "y"] from rfl]
    decide
  have h3 : ∀ n ∈ cfgW, dashFree n.id := by
    intro n hn
    rcases List.mem_cons.mp hn with h | hn
    · rw [h]
      exact (by decide : ('-' : Char) ∉ ("x" : String).data)
    · rcases List.mem_cons.mp hn with h | hn
      · rw [h]
        exact (by decide : ('-' : Char) ∉ ("y" : String).data)
      · simp at hn
  have h4 : cfgW.Pairwise (fun n m => n.pos ≠ m.pos) := by
    refine List.Pairwise.cons ?_ (List.pairwise_singleton _ _)
    intro m hm
    rw [List.mem_singleton] at hm
    subst hm
    show nodeW0.pos ≠ nodeW1.pos
    simp only [nodeW0, nodeW1]
    intro h
    have := congrArg Vec3.x h
    norm_num at this
  have h5 : cfgW.length - 1 ≤ 5 := by norm_num [cfgW]
  refine ⟨h1, h2, h3, h4, h5, ?_⟩
  exact (knn_complete_graph cfgW ConnectionStyle.straight 5 h1 h2 h3 h4 h5).1 "x" "y"
    (by rw [show cfgW.map NodeData.id = ["x", "y"] from rfl]; decide)
    (by rw [show cfgW.map NodeData.id = ["x", "y"] from rfl]; decide)
    (by decide)

/-- Claim C2 (counterexample): the claim says hull construction excludes
every degenerate triple from the face set. In `cfgP` the triple of nodes
`"a", "a-b", "b-c"` is collinear (zero cross product), yet its ids appear
in the returned face set. -/
theorem degenerate_triple_not_excluded_cex :
    Vec3.cross (Vec3.sub (nd cfgP 1).pos (nd cfgP 0).pos)
        (Vec3.sub (nd cfgP 2).pos (nd cfgP 0).pos) = Vec3.zero ∧
    ("a", "a-b", "b-c") ∈
      (computeConvexHull cfgP ConnectionStyle.straight).2.map FaceData.nodeIds := by
  refine ⟨cfgP_deg_cross, ?_⟩
  rw [computeConvexHull, if_neg (by norm_num [cfgP])]
  have htest : isFaceTest cfgP 0 1 2 = true := by
    unfold isFaceTest
    dsimp only
    rw [cfgP_deg_cross, vec_normalize_zero, scanList_zero_normal]
    rfl
  refine List.mem_map.mpr ⟨mkFace cfgP ConnectionStyle.straight 0 1 2, ?_, rfl⟩
  unfold hullFaces
  exact List.mem_filterMap.mpr
    ⟨(0, 1, 2),
      (mem_hullTriples cfgP.length 0 1 2).mpr ⟨by norm_num, by norm_num, by norm_num [cfgP]⟩,
      by rw [htest]; rfl⟩

lemma addPair_fold_inv (nodes : List NodeData) (style : ConnectionStyle)
    (ps : List (ℕ × ℕ)) :
    ∀ (st : List String × List EdgeData) (ps0 : List (ℕ × ℕ)),
      (∀ s, s ∈ st.1 ↔ ∃ p ∈ ps0, edgeKey nodes p.1 p.2 = s) →
      st.2.map (fun e => e.nodeAId ++ "-" ++ e.nodeBId) = st.1 →
      (∀ e ∈ st.2, ∃ p ∈ ps0, e = mkEdge nodes style p.1 p.2) →
      (∀ s, s ∈ (ps.foldl (addPair nodes style) st).1 ↔
          ∃ p ∈ ps0 ++ ps, edgeKey nodes p.1 p.2 = s) ∧
      ((ps.foldl (addPair nodes style) st).2.map
          (fun e => e.nodeAId ++ "-" ++ e.nodeBId) =
        (ps.foldl (addPair nodes style) st).1) ∧
      (∀ e ∈ (ps.foldl (addPair nodes style) st).2,
          ∃ p ∈ ps0 ++ ps, e = mkEdge nodes style p.1 p.2) := by
  induction ps with
  | nil =>
    intro st ps0 h1 h2 h3
    rw [List.append_nil]
    exact ⟨h1, h2, h3⟩
  | cons p ps ih =>
    intro st ps0 h1 h2 h3
    rw [List.foldl_cons]
    have hstep1 : ∀ s, s ∈ (addPair nodes style st p).1 ↔
        ∃ q ∈ ps0 ++ [p], edgeKey nodes q.1 q.2 = s := by
      intro s
      unfold addPair
      split
      · constructor
        · intro hs
          obtain ⟨q, hq, hqs⟩ := (h1 s).mp hs
          exact ⟨q, List.mem_append_left _ hq, hqs⟩
        · rintro ⟨q, hq, hqs⟩
          rcases List.mem_append.mp hq with h | h
          · exact (h1 s).mpr ⟨q, h, hqs⟩
          · rw [List.mem_singleton] at h
            subst h
            subst hqs
            assumption
      · constructor
        · intro hs
          rcases List.mem_append.mp hs with hs | hs
          · obtain ⟨q, hq, hqs⟩ := (h1 s).mp hs
            exact ⟨q, List.mem_append_left _ hq, hqs⟩
          · rw [List.mem_singleton] at hs
            exact ⟨p, List.mem_append_right _ (List.mem_singleton_self _), hs.symm⟩
        · rintro ⟨q, hq, hqs⟩
          rcases List.mem_append.mp hq with h | h
          · exact List.mem_append_left _ ((h1 s).mpr ⟨q, h, hqs⟩)
          · rw [List.mem_singleton] at h
            subst h
            exact List.mem_append_right _ (List.mem_singleton.mpr hqs.symm)
    have hstep2 : (addPair nodes style st p).2.map
        (fun e => e.nodeAId ++ "-" ++ e.nodeBId) = (addPair nodes style st p).1 := by
      unfold addPair
      split
      · exact h2
      · rw [List.map_append, h2]
        rfl
    have hstep3 : ∀ e ∈ (addPair nodes style st p).2,
        ∃ q ∈ ps0 ++ [p], e = mkEdge nodes style q.1 q.2 := by
      intro e he
      unfold addPair at he
      split at he
      · obtain ⟨q, hq, hqe⟩ := h3 e he
        exact ⟨q, List.mem_append_left _ hq, hqe⟩
      · rcases List.mem_append.mp he with h | h
        · obtain ⟨q, hq, hqe⟩ := h3 e h
          exact ⟨q, List.mem_append_left _ hq, hqe⟩
        · rw [List.mem_singleton] at h
          exact ⟨p, List.mem_append_right _ (List.mem_singleton_self _), h⟩
    have hres := ih (addPair nodes style st p) (ps0 ++ [p]) hstep1 hstep2 hstep3
    have hassoc : ps0 ++ p :: ps = (ps0 ++ [p]) ++ ps := by simp
    rw [hassoc]
    exact hres

lemma hullSidePairs_bound {nodes : List NodeData} {p : ℕ × ℕ}
    (hp : p ∈ hullSidePairs nodes) :
    p.1 < nodes.length ∧ p.2 < nodes.length ∧ p.1 < p.2 := by
  unfold hullSidePairs at hp
  obtain ⟨t, ht, hmem⟩ := List.mem_flatMap.mp hp
  obtain ⟨hij, hjk, hk⟩ := (mem_hullTriples nodes.length t.1 t.2.1 t.2.2).mp ht
  split at hmem
  · rcases List.mem_cons.mp hmem with h | hmem
    · subst h
      exact ⟨by omega, by omega, hij⟩
    · rcases List.mem_cons.mp hmem with h | hmem
      · subst h
        exact ⟨by omega, hk, hjk⟩
      · rw [List.mem_singleton] at hmem
        subst hmem
        exact ⟨by omega, hk, by omega⟩
  · simp at hmem

lemma hull_pair_has_edge {nodes : List NodeData} {style : ConnectionStyle}
    (hdash : ∀ n ∈ nodes, dashFree n.id)
    {p : ℕ × ℕ} (hp : p ∈ hullSidePairs nodes) :
    ∃ e ∈ hullEdges nodes style,
      e.nodeAId = (nd nodes p.1).id ∧ e.nodeBId = (nd nodes p.2).id := by
  obtain ⟨hiff, hmap, hsound⟩ :=
    addPair_fold_inv nodes style (hullSidePairs nodes) ([], []) []
      (by simp) rfl (by simp)
  have hkey : edgeKey nodes p.1 p.2 ∈
      ((hullSidePairs nodes).foldl (addPair nodes style) ([], [])).1 :=
    (hiff _).mpr ⟨p, by simpa using hp, rfl⟩
  rw [← hmap] at hkey
  obtain ⟨e, he, hek⟩ := List.mem_map.mp hkey
  refine ⟨e, he, ?_⟩
  obtain ⟨q, hq, rfl⟩ := hsound e he
  obtain ⟨hq1, hq2, _⟩ := hullSidePairs_bound (by simpa using hq)
  obtain ⟨hp1, hp2, _⟩ := hullSidePairs_bound hp
  have hkey' : edgeKey nodes q.1 q.2 = edgeKey nodes p.1 p.2 := hek
  have hinj := dash_key_inj (hdash _ (nd_mem hq1)) (hdash _ (nd_mem hp1)) hkey'
  rw [mkEdge]
  exact ⟨hinj.1, hinj.2⟩

lemma hullFaces_sound {nodes : List NodeData} {style : ConnectionStyle} {F : FaceData}
    (hF : F ∈ hullFaces nodes style) :
    ∃ i j k : ℕ, i < j ∧ j < k ∧ k < nodes.length ∧ isFaceTest nodes i j k = true ∧
      F = mkFace nodes style i j k := by
  unfold hullFaces at hF
  obtain ⟨t, ht, hsome⟩ := List.mem_filterMap.mp hF
  obtain ⟨hij, hjk, hk⟩ := (mem_hullTriples nodes.length t.1 t.2.1 t.2.2).mp ht
  by_cases htest : isFaceTest nodes t.1 t.2.1 t.2.2 = true
  · rw [if_pos htest] at hsome
    exact ⟨t.1, t.2.1, t.2.2, hij, hjk, hk, htest, (Option.some_inj.mp hsome).symm⟩
  · rw [if_neg htest] at hsome
    simp at hsome

lemma triple_sidePairs {nodes : List NodeData} {i j k : ℕ}
    (hij : i < j) (hjk : j < k) (hk : k < nodes.length)
    (htest : isFaceTest nodes i j k = true) :
    (i, j) ∈ hullSidePairs nodes ∧ (j, k) ∈ hullSidePairs nodes ∧
      (i, k) ∈ hullSidePairs nodes := by
  have hmem : (i, j, k) ∈ hullTriples nodes.length :=
    (mem_hullTriples nodes.length i j k).mpr ⟨hij, hjk, hk⟩
  refine ⟨?_, ?_, ?_⟩ <;>
    · refine List.mem_flatMap.mpr ⟨(i, j, k), hmem, ?_⟩
      rw [if_pos htest]
      simp

lemma adj_pair_has_edge {nodes : List NodeData} {style : ConnectionStyle} {k : ℕ}
    (hnodup : (nodes.map NodeData.id).Nodup)
    (hdash : ∀ n ∈ nodes, dashFree n.id)
    {x y : String} (hxy : (x, y) ∈ (knnState nodes style k).adj) :
    ∃ e ∈ kNNEdges nodes style k,
      (e.nodeAId = x ∧ e.nodeBId = y) ∨ (e.nodeAId = y ∧ e.nodeBId = x) := by
  obtain ⟨⟨hadj, hkeys, hmap, hiff, hedges⟩, hgood⟩ :=
    @knnState_inv nodes style k hnodup
  rw [hadj] at hxy
  obtain ⟨p, hp, hmem⟩ := List.mem_flatMap.mp hxy
  have hkey : pairKey p.1 p.2 ∈ (knnState nodes style k).keys :=
    (hiff _).mpr ⟨p, hp, rfl⟩
  rw [← hmap] at hkey
  obtain ⟨e, he, hek⟩ := List.mem_map.mp hkey
  obtain ⟨q, hq, rfl⟩ := hedges e he
  obtain ⟨hq1, hq2, _⟩ := hgood q hq
  obtain ⟨hp1, hp2, _⟩ := hgood p hp
  have hqd : dashFree (strSortPair q.1 q.2).1 :=
    dashFree_strSortPair_fst (dashFree_of_mem_ids hdash hq1) (dashFree_of_mem_ids hdash hq2)
  have hpd : dashFree (strSortPair p.1 p.2).1 :=
    dashFree_strSortPair_fst (dashFree_of_mem_ids hdash hp1) (dashFree_of_mem_ids hdash hp2)
  have hek' : (strSortPair q.1 q.2).1 ++ "-" ++ (strSortPair q.1 q.2).2 =
      (strSortPair p.1 p.2).1 ++ "-" ++ (strSortPair p.1 p.2).2 := hek
  have hinj := dash_key_inj hqd hpd hek'
  refine ⟨mkKnnEdge nodes style q.1 q.2, he, ?_⟩
  have hA : (mkKnnEdge nodes style q.1 q.2).nodeAId = (strSortPair p.1 p.2).1 := hinj.1
  have hB : (mkKnnEdge nodes style q.1 q.2).nodeBId = (strSortPair p.1 p.2).2 := hinj.2
  have hxy' : (x = p.1 ∧ y = p.2) ∨ (x = p.2 ∧ y = p.1) := by
    rcases List.mem_cons.mp hmem with h | hmem
    · exact Or.inl ⟨congrArg Prod.fst h, congrArg Prod.snd h⟩
    · rw [List.mem_singleton] at hmem
      exact Or.inr ⟨congrArg Prod.fst hmem, congrArg Prod.snd hmem⟩
  rcases strSortPair_cases p.1 p.2 with hs | hs <;> rw [hs] at hA hB <;>
    rcases hxy' with ⟨rfl, rfl⟩ | ⟨rfl, rfl⟩
  · exact Or.inl ⟨hA, hB⟩
  · exact Or.inr ⟨hA, hB⟩
  · exact Or.inr ⟨hA, hB⟩
  · exact Or.inl ⟨hA, hB⟩

/-- What every face the k-NN face phase emits looks like. -/
def KnnFaceShape (nodes : List NodeData) (adj : List (String × String))
    (edges : List EdgeData) (f : FaceData) : Prop :=
  ∃ e ∈ edges, ∃ nodeC ∈ nodes,
    nodeC.id ≠ e.nodeAId ∧ nodeC.id ≠ e.nodeBId ∧
    (e.nodeAId, nodeC.id) ∈ adj ∧ (e.nodeBId, nodeC.id) ∈ adj ∧
    f.nodeIds = ((strSort [e.nodeAId, e.nodeBId, nodeC.id]).getD 0 "",
      (strSort [e.nodeAId, e.nodeBId, nodeC.id]).getD 1 "",
      (strSort [e.nodeAId, e.nodeBId, nodeC.id]).getD 2 "")

lemma knnFaceVisit_sound {nodes : List NodeData} {style : ConnectionStyle}
    {adj : List (String × String)} {edges : List EdgeData} {edge : EdgeData}
    (hedge : edge ∈ edges) {acc : List String × List FaceData} {nodeC : NodeData}
    (hC : nodeC ∈ nodes)
    (hacc : ∀ f ∈ acc.2, KnnFaceShape nodes adj edges f) :
    ∀ f ∈ (knnFaceVisit nodes style adj edge acc nodeC).2,
      KnnFaceShape nodes adj edges f := by
  intro f hf
  unfold knnFaceVisit at hf
  split at hf
  · next hcond =>
    dsimp only at hf
    split at hf
    · exact hacc f hf
    · rcases List.mem_append.mp hf with h | h
      · exact hacc f h
      · rw [List.mem_singleton] at h
        subst h
        exact ⟨edge, hedge, nodeC, hC, hcond.1, hcond.2.1,
          of_decide_eq_true hcond.2.2.1, of_decide_eq_true hcond.2.2.2, rfl⟩
  · exact hacc f hf

lemma knnFaceInner_sound {nodes : List NodeData} {style : ConnectionStyle}
    {adj : List (String × String)} {edges : List EdgeData} {edge : EdgeData}
    (hedge : edge ∈ edges) :
    ∀ (ns : List NodeData), (∀ C ∈ ns, C ∈ nodes) →
      ∀ (acc : List String × List FaceData),
        (∀ f ∈ acc.2, KnnFaceShape nodes adj edges f) →
        ∀ f ∈ (ns.foldl (knnFaceVisit nodes style adj edge) acc).2,
          KnnFaceShape nodes adj edges f := by
  intro ns
  induction ns with
  | nil =>
    intro _ acc hacc f hf
    exact hacc f hf
  | cons C cs ih =>
    intro hns acc hacc
    rw [List.foldl_cons]
    exact ih (fun D hD => hns D (List.mem_cons_of_mem C hD)) _
      (knnFaceVisit_sound hedge (hns C (List.mem_cons_self C cs)) hacc)

lemma knnFaceOuter_sound {nodes : List NodeData} {style : ConnectionStyle}
    {adj : List (String × String)} {edges : List EdgeData} :
    ∀ (es : List EdgeData), (∀ e ∈ es, e ∈ edges) →
      ∀ (acc : List String × List FaceData),
        (∀ f ∈ acc.2, KnnFaceShape nodes adj edges f) →
        ∀ f ∈ (es.foldl
            (fun acc edge => nodes.foldl (knnFaceVisit nodes style adj edge) acc)
            acc).2,
          KnnFaceShape nodes adj edges f := by
  intro es
  induction es with
  | nil =>
    intro _ acc hacc f hf
    exact hacc f hf
  | cons e es ih =>
    intro hes acc hacc
    rw [List.foldl_cons]
    exact ih (fun d hd => hes d (List.mem_cons_of_mem e hd)) _
      (knnFaceInner_sound (hes e (List.mem_cons_self e es)) nodes (fun _ h => h) acc hacc)

lemma kNNFaces_sound {nodes : List NodeData} {style : ConnectionStyle} {k : ℕ} :
    ∀ f ∈ kNNFaces nodes style k,
      KnnFaceShape nodes (knnState nodes style k).adj (kNNEdges nodes style k) f := by
  intro f hf
  unfold kNNFaces at hf
  exact knnFaceOuter_sound (kNNEdges nodes style k) (fun _ h => h) ([], [])
    (by simp) f hf

lemma list_eq_three {l : List String} (h : l.length = 3) :
    l = [l.getD 0 "", l.getD 1 "", l.getD 2 ""] := by
  rcases l with _ | ⟨a, _ | ⟨b, _ | ⟨c, _ | ⟨d, l⟩⟩⟩⟩ <;> simp_all

lemma pair_perm_cases {α : Type} {u v p q : α}
    (hpq : List.Perm [u, v] [p, q]) :
    (u = p ∧ v = q) ∨ (u = q ∧ v = p) := by
  have hu : u ∈ ([p, q] : List α) := hpq.mem_iff.mp (by simp)
  have hv : v ∈ ([p, q] : List α) := hpq.mem_iff.mp (by simp)
  have hp : p ∈ ([u, v] : List α) := hpq.mem_iff.mpr (by simp)
  have hq : q ∈ ([u, v] : List α) := hpq.mem_iff.mpr (by simp)
  simp only [List.mem_cons, List.mem_singleton, List.not_mem_nil, or_false] at hu hv hp hq
  rcases hu with hu | hu
  · rcases hv with hv | hv
    · rcases hq with hq | hq
      · exact Or.inl ⟨hu, hv.trans ((hq.trans hu).symm)⟩
      · exact Or.inl ⟨hu, hq.symm⟩
    · exact Or.inl ⟨hu, hv⟩
  · rcases hv with hv | hv
    · exact Or.inr ⟨hu, hv⟩
    · rcases hp with hp | hp
      · exact Or.inr ⟨hu, hv.trans (hp.trans hu).symm⟩
      · exact Or.inr ⟨hu, hp.symm⟩

lemma triple_perm_cases {α : Type} {x y z a b c : α}
    (h : List.Perm [x, y, z] [a, b, c]) :
    (x = a ∧ y = b ∧ z = c) ∨ (x = a ∧ y = c ∧ z = b) ∨ (x = b ∧ y = a ∧ z = c) ∨
    (x = b ∧ y = c ∧ z = a) ∨ (x = c ∧ y = a ∧ z = b) ∨ (x = c ∧ y = b ∧ z = a) := by
  have hswap12 : List.Perm ([a, b, c] : List α) [b, a, c] := List.Perm.swap b a [c]
  have hrot : List.Perm ([a, b, c] : List α) [c, a, b] :=
    (List.Perm.cons a (List.Perm.swap c b [])).trans (List.Perm.swap c a [b])
  have hx : x ∈ ([a, b, c] : List α) := h.mem_iff.mp (List.mem_cons_self x [y, z])
  rcases List.mem_cons.mp hx with rfl | hx
  · rcases pair_perm_cases h.cons_inv with ⟨h1, h2⟩ | ⟨h1, h2⟩
    · exact Or.inl ⟨rfl, h1, h2⟩
    · exact Or.inr (Or.inl ⟨rfl, h1, h2⟩)
  · rcases List.mem_cons.mp hx with rfl | hx
    · rcases pair_perm_cases (h.trans hswap12).cons_inv with ⟨h1, h2⟩ | ⟨h1, h2⟩
      · exact Or.inr (Or.inr (Or.inl ⟨rfl, h1, h2⟩))
      · exact Or.inr (Or.inr (Or.inr (Or.inl ⟨rfl, h1, h2⟩)))
    · rw [List.mem_singleton] at hx
      subst hx
      rcases pair_perm_cases (h.trans hrot).cons_inv with ⟨h1, h2⟩ | ⟨h1, h2⟩
      · exact Or.inr (Or.inr (Or.inr (Or.inr (Or.inl ⟨rfl, h1, h2⟩))))
      · exact Or.inr (Or.inr (Or.inr (Or.inr (Or.inr ⟨rfl, h1, h2⟩))))

/-- The three node-id pairs of a face. -/
def facePairs (F : FaceData) : List (String × String) :=
  [(F.nodeIds.1, F.nodeIds.2.1), (F.nodeIds.1, F.nodeIds.2.2),
    (F.nodeIds.2.1, F.nodeIds.2.2)]

/-- Claim C3 (amended): for every node list whose ids are pairwise
distinct and contain no `'-'`, in both connection modes (and trivially for
style `none`), every face returned by `buildGraph` has each of its three
node-id pairs present as an edge (as an unordered pair) in the edge set of
the same call. The dash restriction is forced by the counterexample: two
distinct id pairs can share one string dedup key, and then a face
references a pair that never became an edge. -/
theorem face_pairs_have_edges (nodes : List NodeData) (style : ConnectionStyle)
    (mode : ConnectionMode) (k : ℕ)
    (hnodup : (nodes.map NodeData.id).Nodup)
    (hdash : ∀ n ∈ nodes, dashFree n.id) :
    ∀ F ∈ (buildGraph nodes style mode k).2, ∀ p ∈ facePairs F,
      ∃ e ∈ (buildGraph nodes style mode k).1,
        (e.nodeAId = p.1 ∧ e.nodeBId = p.2) ∨ (e.nodeAId = p.2 ∧ e.nodeBId = p.1) := by
  intro F hF p hp
  unfold buildGraph at hF ⊢
  by_cases hstyle : style = ConnectionStyle.none
  · rw [if_pos hstyle] at hF
    simp at hF
  · rw [if_neg hstyle] at hF ⊢
    by_cases hmode : mode = ConnectionMode.auto
    · rw [if_pos hmode] at hF ⊢
      unfold computeConvexHull at hF ⊢
      by_cases hn : nodes.length < 4
      · rw [if_pos hn] at hF
        simp at hF
      · rw [if_neg hn] at hF ⊢
        obtain ⟨i, j, k', hij, hjk, hk', htest, rfl⟩ := hullFaces_sound hF
        obtain ⟨hs1, hs2, hs3⟩ := triple_sidePairs hij hjk hk' htest
        unfold facePairs at hp
        simp only [List.mem_cons, List.mem_singleton, List.not_mem_nil, or_false] at hp
        rcases hp with rfl | rfl | rfl
        · obtain ⟨e, he, he2⟩ := @hull_pair_has_edge nodes style hdash _ hs1
          exact ⟨e, he, Or.inl ⟨he2.1, he2.2⟩⟩
        · obtain ⟨e, he, he2⟩ := @hull_pair_has_edge nodes style hdash _ hs3
          exact ⟨e, he, Or.inl ⟨he2.1, he2.2⟩⟩
        · obtain ⟨e, he, he2⟩ := @hull_pair_has_edge nodes style hdash _ hs2
          exact ⟨e, he, Or.inl ⟨he2.1, he2.2⟩⟩
    · rw [if_neg hmode] at hF ⊢
      obtain ⟨e0, he0, C, hC, hC1, hC2, hadjA, hadjB, hids⟩ := kNNFaces_sound F hF
      have heAB : ∃ e ∈ kNNEdges nodes style k,
          (e.nodeAId = e0.nodeAId ∧ e.nodeBId = e0.nodeBId) ∨
            (e.nodeAId = e0.nodeBId ∧ e.nodeBId = e0.nodeAId) :=
        ⟨e0, he0, Or.inl ⟨rfl, rfl⟩⟩
      have heAC := @adj_pair_has_edge nodes style k hnodup hdash _ _ hadjA
      have heBC := @adj_pair_has_edge nodes style k hnodup hdash _ _ hadjB
      have hsymmEdge : ∀ x y : String,
          (∃ e ∈ kNNEdges nodes style k,
            (e.nodeAId = x ∧ e.nodeBId = y) ∨ (e.nodeAId = y ∧ e.nodeBId = x)) →
          ∃ e ∈ kNNEdges nodes style k,
            (e.nodeAId = y ∧ e.nodeBId = x) ∨ (e.nodeAId = x ∧ e.nodeBId = y) := by
        rintro x y ⟨e, he, h | h⟩
        · exact ⟨e, he, Or.inr h⟩
        · exact ⟨e, he, Or.inl h⟩
      have hlen : (strSort [e0.nodeAId, e0.nodeBId, C.id]).length = 3 := by
        rw [(strSort_perm _).length_eq]
        rfl
      have hdecomp := list_eq_three hlen
      have hperm : List.Perm
          [(strSort [e0.nodeAId, e0.nodeBId, C.id]).getD 0 "",
            (strSort [e0.nodeAId, e0.nodeBId, C.id]).getD 1 "",
            (strSort [e0.nodeAId, e0.nodeBId, C.id]).getD 2 ""]
          [e0.nodeAId, e0.nodeBId, C.id] := by
        rw [← hdecomp]
        exact strSort_perm _
      have hcases := triple_perm_cases hperm
      unfold facePairs at hp
      rw [hids] at hp
      simp only [List.mem_cons, List.mem_singleton, List.not_mem_nil, or_false] at hp
      rcases hp with rfl | rfl | rfl <;>
        rcases hcases with ⟨h0, h1, h2⟩ | ⟨h0, h1, h2⟩ | ⟨h0, h1, h2⟩ |
          ⟨h0, h1, h2⟩ | ⟨h0, h1, h2⟩ | ⟨h0, h1, h2⟩ <;>
        dsimp only <;>
        simp only [h0, h1, h2] <;>
        first
          | exact heAB
          | exact hsymmEdge _ _ heAB
          | exact heAC
          | exact hsymmEdge _ _ heAC
          | exact heBC
          | exact hsymmEdge _ _ heBC

/-- Witness for the amended C3 on the concrete two-node list. -/
theorem face_pairs_have_edges_witness :
    (cfgW.map NodeData.id).Nodup ∧ (∀ n ∈ cfgW, dashFree n.id) ∧
      (∀ F ∈ (buildGraph cfgW ConnectionStyle.straight ConnectionMode.fixed 1).2,
        ∀ p ∈ facePairs F,
          ∃ e ∈ (buildGraph cfgW ConnectionStyle.straight ConnectionMode.fixed 1).1,
            (e.nodeAId = p.1 ∧ e.nodeBId = p.2) ∨
              (e.nodeAId = p.2 ∧ e.nodeBId = p.1)) := by
  have h2 : (cfgW.map NodeData.id).Nodup := by
    rw [show cfgW.map NodeData.id = ["x", "y"] from rfl]
    decide
  have h3 : ∀ n ∈ cfgW, dashFree n.id := by
    intro n hn
    rcases List.mem_cons.mp hn with h | hn
    · rw [h]
      exact (by decide : ('-' : Char) ∉ ("x" : String).data)
    · rcases List.mem_cons.mp hn with h | hn
      · rw [h]
        exact (by decide : ('-' : Char) ∉ ("y" : String).data)
      · simp at hn
  exact ⟨h2, h3,
    face_pairs_have_edges cfgW ConnectionStyle.straight ConnectionMode.fixed 1 h2 h3⟩

/-- First-occurrence dedup of a pair list by key (mirrors the growth of
`uniqueEdgeKeys` inside the edge fold). -/
def firstKeyed (K : ℕ × ℕ → String) (seen : List String) : List (ℕ × ℕ) → List (ℕ × ℕ)
  | [] => []
  | p :: ps => if K p ∈ seen then firstKeyed K seen ps
    else p :: firstKeyed K (seen ++ [K p]) ps

lemma addPair_fold_eq (nodes : List NodeData) (style : ConnectionStyle) :
    ∀ (ps : List (ℕ × ℕ)) (st : List String × List EdgeData),
      (ps.foldl (addPair nodes style) st).2 =
        st.2 ++ (firstKeyed (fun p => edgeKey nodes p.1 p.2) st.1 ps).map
          (fun p => mkEdge nodes style p.1 p.2) := by
  intro ps
  induction ps with
  | nil =>
    intro st
    simp [firstKeyed]
  | cons p ps ih =>
    intro st
    rw [List.foldl_cons]
    unfold firstKeyed
    by_cases hk : edgeKey nodes p.1 p.2 ∈ st.1
    · rw [if_pos hk, show addPair nodes style st p = st from by unfold addPair; rw [if_pos hk],
        ih]
    · rw [if_neg hk,
        show addPair nodes style st p =
          (st.1 ++ [edgeKey nodes p.1 p.2], st.2 ++ [mkEdge nodes style p.1 p.2]) from by
            unfold addPair; rw [if_neg hk],
        ih]
      simp

lemma hullEdges_eq (nodes : List NodeData) (style : ConnectionStyle) :
    hullEdges nodes style =
      (firstKeyed (fun p => edgeKey nodes p.1 p.2) [] (hullSidePairs nodes)).map
        (fun p => mkEdge nodes style p.1 p.2) := by
  unfold hullEdges
  rw [addPair_fold_eq]
  rfl

lemma scanStep_dot_zero {normal p1 : Vec3} (s : ℤ) {pm : Vec3}
    (h : Vec3.dot normal (Vec3.sub pm p1) = 0) : scanStep normal p1 s pm = some s := by
  unfold scanStep
  dsimp only
  rw [h]
  rw [if_neg]
  norm_num

lemma hullTriples_four : hullTriples 4 = [(0, 1, 2), (0, 1, 3), (0, 2, 3), (1, 2, 3)] := by
  rfl

lemma testP012 : isFaceTest cfgP 0 1 2 = true := by
  unfold isFaceTest
  dsimp only
  rw [show othersOf cfgP 0 1 2 = [nodeP3] from rfl]
  unfold scanList
  rw [List.foldl_cons, List.foldl_nil]
  rw [show (match (some 0 : Option ℤ) with
      | Option.none => (Option.none : Option ℤ)
      | some s => scanStep
          (Vec3.normalize (Vec3.cross (Vec3.sub (nd cfgP 1).pos (nd cfgP 0).pos)
            (Vec3.sub (nd cfgP 2).pos (nd cfgP 0).pos))) (nd cfgP 0).pos s nodeP3.pos) =
      scanStep (Vec3.normalize (Vec3.cross (Vec3.sub (nd cfgP 1).pos (nd cfgP 0).pos)
        (Vec3.sub (nd cfgP 2).pos (nd cfgP 0).pos))) (nd cfgP 0).pos 0 nodeP3.pos from rfl]
  rw [scanStep_dot_zero 0]
  · rfl
  · show Vec3.dot (Vec3.normalize (Vec3.cross (Vec3.sub nodeP1.pos nodeP0.pos)
      (Vec3.sub nodeP2.pos nodeP0.pos))) (Vec3.sub nodeP3.pos nodeP0.pos) = 0
    norm_num [nodeP0, nodeP1, nodeP2, nodeP3, Vec3.sub, Vec3.cross, Vec3.normalize,
      Vec3.smul, Vec3.dot]

lemma testP013 : isFaceTest cfgP 0 1 3 = true := by
  unfold isFaceTest
  dsimp only
  rw [show othersOf cfgP 0 1 3 = [nodeP2] from rfl]
  unfold scanList
  rw [List.foldl_cons, List.foldl_nil]
  dsimp only
  rw [scanStep_dot_zero 0]
  · rfl
  · show Vec3.dot (Vec3.normalize (Vec3.cross (Vec3.sub nodeP1.pos nodeP0.pos)
      (Vec3.sub nodeP3.pos nodeP0.pos))) (Vec3.sub nodeP2.pos nodeP0.pos) = 0
    norm_num [nodeP0, nodeP1, nodeP2, nodeP3, Vec3.sub, Vec3.cross, Vec3.normalize,
      Vec3.smul, Vec3.dot]

lemma testP023 : isFaceTest cfgP 0 2 3 = true := by
  unfold isFaceTest
  dsimp only
  rw [show othersOf cfgP 0 2 3 = [nodeP1] from rfl]
  unfold scanList
  rw [List.foldl_cons, List.foldl_nil]
  dsimp only
  rw [scanStep_dot_zero 0]
  · rfl
  · show Vec3.dot (Vec3.normalize (Vec3.cross (Vec3.sub nodeP2.pos nodeP0.pos)
      (Vec3.sub nodeP3.pos nodeP0.pos))) (Vec3.sub nodeP1.pos nodeP0.pos) = 0
    norm_num [nodeP0, nodeP1, nodeP2, nodeP3, Vec3.sub, Vec3.cross, Vec3.normalize,
      Vec3.smul, Vec3.dot]

lemma testP123 : isFaceTest cfgP 1 2 3 = true := by
  unfold isFaceTest
  dsimp only
  rw [show othersOf cfgP 1 2 3 = [nodeP0] from rfl]
  unfold scanList
  rw [List.foldl_cons, List.foldl_nil]
  dsimp only
  rw [scanStep_dot_zero 0]
  · rfl
  · show Vec3.dot (Vec3.normalize (Vec3.cross (Vec3.sub nodeP2.pos nodeP1.pos)
      (Vec3.sub nodeP3.pos nodeP1.pos))) (Vec3.sub nodeP0.pos nodeP1.pos) = 0
    norm_num [nodeP0, nodeP1, nodeP2, nodeP3, Vec3.sub, Vec3.cross, Vec3.normalize,
      Vec3.smul, Vec3.dot]

lemma testQ012 : isFaceTest cfgQ 0 1 2 = true := by
  unfold isFaceTest
  dsimp only
  rw [show othersOf cfgQ 0 1 2 = [nodeP2] from rfl]
  unfold scanList
  rw [List.foldl_cons, List.foldl_nil]
  dsimp only
  rw [scanStep_dot_zero 0]
  · rfl
  · show Vec3.dot (Vec3.normalize (Vec3.cross (Vec3.sub nodeP3.pos nodeP1.pos)
      (Vec3.sub nodeP0.pos nodeP1.pos))) (Vec3.sub nodeP2.pos nodeP1.pos) = 0
    norm_num [nodeP0, nodeP1, nodeP2, nodeP3, Vec3.sub, Vec3.cross, Vec3.normalize,
      Vec3.smul, Vec3.dot]

lemma testQ013 : isFaceTest cfgQ 0 1 3 = true := by
  unfold isFaceTest
  dsimp only
  rw [show othersOf cfgQ 0 1 3 = [nodeP0] from rfl]
  unfold scanList
  rw [List.foldl_cons, List.foldl_nil]
  dsimp only
  rw [scanStep_dot_zero 0]
  · rfl
  · show Vec3.dot (Vec3.normalize (Vec3.cross (Vec3.sub nodeP3.pos nodeP1.pos)
      (Vec3.sub nodeP2.pos nodeP1.pos))) (Vec3.sub nodeP0.pos nodeP1.pos) = 0
    norm_num [nodeP0, nodeP1, nodeP2, nodeP3, Vec3.sub, Vec3.cross, Vec3.normalize,
      Vec3.smul, Vec3.dot]

lemma testQ023 : isFaceTest cfgQ 0 2 3 = true := by
  unfold isFaceTest
  dsimp only
  rw [show othersOf cfgQ 0 2 3 = [nodeP3] from rfl]
  unfold scanList
  rw [List.foldl_cons, List.foldl_nil]
  dsimp only
  rw [scanStep_dot_zero 0]
  · rfl
  · show Vec3.dot (Vec3.normalize (Vec3.cross (Vec3.sub nodeP0.pos nodeP1.pos)
      (Vec3.sub nodeP2.pos nodeP1.pos))) (Vec3.sub nodeP3.pos nodeP1.pos) = 0
    norm_num [nodeP0, nodeP1, nodeP2, nodeP3, Vec3.sub, Vec3.cross, Vec3.normalize,
      Vec3.smul, Vec3.dot]

lemma testQ123 : isFaceTest cfgQ 1 2 3 = true := by
  unfold isFaceTest
  dsimp only
  rw [show othersOf cfgQ 1 2 3 = [nodeP1] from rfl]
  unfold scanList
  rw [List.foldl_cons, List.foldl_nil]
  dsimp only
  rw [scanStep_dot_zero 0]
  · rfl
  · show Vec3.dot (Vec3.normalize (Vec3.cross (Vec3.sub nodeP0.pos nodeP3.pos)
      (Vec3.sub nodeP2.pos nodeP3.pos))) (Vec3.sub nodeP1.pos nodeP3.pos) = 0
    norm_num [nodeP0, nodeP1, nodeP2, nodeP3, Vec3.sub, Vec3.cross, Vec3.normalize,
      Vec3.smul, Vec3.dot]

lemma sidePairsP : hullSidePairs cfgP =
    [(0, 1), (1, 2), (0, 2), (0, 1), (1, 3), (0, 3), (0, 2), (2, 3), (0, 3),
      (1, 2), (2, 3), (1, 3)] := by
  unfold hullSidePairs
  rw [show cfgP.length = 4 from rfl, hullTriples_four]
  simp only [List.flatMap_cons, List.flatMap_nil, testP012, testP013, testP023, testP123,
    if_true]
  rfl

lemma sidePairsQ : hullSidePairs cfgQ =
    [(0, 1), (1, 2), (0, 2), (0, 1), (1, 3), (0, 3), (0, 2), (2, 3), (0, 3),
      (1, 2), (2, 3), (1, 3)] := by
  unfold hullSidePairs
  rw [show cfgQ.length = 4 from rfl, hullTriples_four]
  simp only [List.flatMap_cons, List.flatMap_nil, testQ012, testQ013, testQ023, testQ123,
    if_true]
  rfl

lemma firstKeyedP_eval :
    firstKeyed (fun p => edgeKey cfgP p.1 p.2) []
      [(0, 1), (1, 2), (0, 2), (0, 1), (1, 3), (0, 3), (0, 2), (2, 3), (0, 3),
        (1, 2), (2, 3), (1, 3)] = [(0, 1), (1, 2), (0, 2), (0, 3), (2, 3)] := by
  rfl

lemma firstKeyedQ_eval :
    firstKeyed (fun p => edgeKey cfgQ p.1 p.2) []
      [(0, 1), (1, 2), (0, 2), (0, 1), (1, 3), (0, 3), (0, 2), (2, 3), (0, 3),
        (1, 2), (2, 3), (1, 3)] = [(0, 1), (1, 2), (0, 2), (1, 3), (0, 3)] := by
  rfl

lemma edgesP_pairs :
    (hullEdges cfgP ConnectionStyle.straight).map (fun e => (e.nodeAId, e.nodeBId)) =
      [("a", "a-b"), ("a-b", "b-c"), ("a", "b-c"), ("a", "c"), ("b-c", "c")] := by
  rw [hullEdges_eq, sidePairsP, firstKeyedP_eval]
  rfl

lemma edgesQ_pairs :
    (hullEdges cfgQ ConnectionStyle.straight).map (fun e => (e.nodeAId, e.nodeBId)) =
      [("a-b", "c"), ("c", "a"), ("a-b", "a"), ("c", "b-c"), ("a-b", "b-c")] := by
  rw [hullEdges_eq, sidePairsQ, firstKeyedQ_eval]
  rfl

/-- Claim C3 (counterexample): with ids `"a", "a-b", "b-c", "c"` the hull
emits the face `("a", "a-b", "c")`, whose pair `("a-b", "c")` has no edge:
its dedup key `"a-b-c"` was already taken by the distinct pair
`("a", "b-c")`, so the edge was silently skipped. -/
theorem face_pair_without_edge_cex :
    mkFace cfgP ConnectionStyle.straight 0 1 3 ∈
        (computeConvexHull cfgP ConnectionStyle.straight).2 ∧
    ("a-b", "c") ∈ facePairs (mkFace cfgP ConnectionStyle.straight 0 1 3) ∧
    ¬ ∃ e ∈ (computeConvexHull cfgP ConnectionStyle.straight).1,
        (e.nodeAId = "a-b" ∧ e.nodeBId = "c") ∨
          (e.nodeAId = "c" ∧ e.nodeBId = "a-b") := by
  refine ⟨?_, ?_, ?_⟩
  · rw [computeConvexHull, if_neg (by norm_num [cfgP])]
    unfold hullFaces
    exact List.mem_filterMap.mpr
      ⟨(0, 1, 3),
        (mem_hullTriples cfgP.length 0 1 3).mpr
          ⟨by norm_num, by norm_num, by norm_num [cfgP]⟩,
        by rw [testP013]; rfl⟩
  · show ("a-b", "c") ∈
      [((nd cfgP 0).id, (nd cfgP 1).id), ((nd cfgP 0).id, (nd cfgP 3).id),
        ((nd cfgP 1).id, (nd cfgP 3).id)]
    simp [cfgP, nd, nodeP0, nodeP1, nodeP3]
  · rintro ⟨e, he, hor⟩
    rw [computeConvexHull, if_neg (by norm_num [cfgP])] at he
    have hm : (e.nodeAId, e.nodeBId) ∈
        (hullEdges cfgP ConnectionStyle.straight).map (fun e => (e.nodeAId, e.nodeBId)) :=
      List.mem_map_of_mem _ he
    rw [edgesP_pairs] at hm
    rcases hor with ⟨h1, h2⟩ | ⟨h1, h2⟩ <;> rw [h1, h2] at hm <;> revert hm <;> decide

/-- Claim C9 (counterexample): reordering the node list changes the hull's
edge set when dedup keys collide: in the order `cfgP` the pair
`("a", "b-c")` wins the shared key `"a-b-c"` and becomes an edge, in the
reordering `cfgQ` the pair `("a-b", "c")` wins it instead, and no edge
with ids `{"a", "b-c"}` exists at all. -/
theorem hull_not_permutation_invariant_cex :
    List.Perm cfgQ cfgP ∧
    (∃ e ∈ (computeConvexHull cfgP ConnectionStyle.straight).1,
      e.nodeAId = "a" ∧ e.nodeBId = "b-c") ∧
    ¬ ∃ e ∈ (computeConvexHull cfgQ ConnectionStyle.straight).1,
        (e.nodeAId = "a" ∧ e.nodeBId = "b-c") ∨
          (e.nodeAId = "b-c" ∧ e.nodeBId = "a") := by
  refine ⟨?_, ?_, ?_⟩
  · show List.Perm [nodeP1, nodeP3, nodeP0, nodeP2] [nodeP0, nodeP1, nodeP2, nodeP3]
    have s1 : List.Perm [nodeP1, nodeP3, nodeP0, nodeP2] [nodeP1, nodeP0, nodeP3, nodeP2] :=
      List.Perm.cons nodeP1 (List.Perm.swap nodeP0 nodeP3 [nodeP2])
    have s2 : List.Perm [nodeP1, nodeP0, nodeP3, nodeP2] [nodeP0, nodeP1, nodeP3, nodeP2] :=
      List.Perm.swap nodeP0 nodeP1 [nodeP3, nodeP2]
    have s3 : List.Perm [nodeP0, nodeP1, nodeP3, nodeP2] [nodeP0, nodeP1, nodeP2, nodeP3] :=
      List.Perm.cons nodeP0 (List.Perm.cons nodeP1 (List.Perm.swap nodeP2 nodeP3 []))
    exact (s1.trans s2).trans s3
  · refine ⟨mkEdge cfgP ConnectionStyle.straight 0 2, ?_, rfl, rfl⟩
    rw [computeConvexHull, if_neg (by norm_num [cfgP])]
    show mkEdge cfgP ConnectionStyle.straight 0 2 ∈ hullEdges cfgP ConnectionStyle.straight
    rw [hullEdges_eq, sidePairsP, firstKeyedP_eval]
    exact List.mem_map_of_mem _
      (show ((0 : ℕ), (2 : ℕ)) ∈ [(0, 1), (1, 2), (0, 2), (0, 3), (2, 3)] by decide)
  · rintro ⟨e, he, hor⟩
    rw [computeConvexHull, if_neg (by norm_num [cfgQ])] at he
    have hm : (e.nodeAId, e.nodeBId) ∈
        (hullEdges cfgQ ConnectionStyle.straight).map (fun e => (e.nodeAId, e.nodeBId)) :=
      List.mem_map_of_mem _ he
    rw [edgesQ_pairs] at hm
    rcases hor with ⟨h1, h2⟩ | ⟨h1, h2⟩ <;> rw [h1, h2] at hm <;> revert hm <;> decide

/-- Concrete k-NN nodes on the x-axis at 0, 1, 3, 7 (all pairwise
distances are distinct integers) with the colliding ids. -/
def nodeK0 : NodeData := ⟨"a", ⟨0, 0, 0⟩, "#k0"⟩

/-- Second k-NN node (id `"a-b"`, x = 1). -/
def nodeK1 : NodeData := ⟨"a-b", ⟨1, 0, 0⟩, "#k1"⟩

/-- Third k-NN node (id `"b-c"`, x = 3). -/
def nodeK2 : NodeData := ⟨"b-c", ⟨3, 0, 0⟩, "#k2"⟩

/-- Fourth k-NN node (id `"c"`, x = 7). -/
def nodeK3 : NodeData := ⟨"c", ⟨7, 0, 0⟩, "#k3"⟩

/-- The four-node k-NN counterexample list. -/
def cfgK : List NodeData := [nodeK0, nodeK1, nodeK2, nodeK3]

lemma sqrt_eval {a b : ℝ} (hb : 0 ≤ b) (h : a = b ^ 2) : Real.sqrt a = b := by
  rw [h, Real.sqrt_sq hb]

lemma distK01 : Vec3.distanceTo (nd cfgK 0).pos (nd cfgK 1).pos = 1 := by
  show Vec3.distanceTo nodeK0.pos nodeK1.pos = 1
  unfold Vec3.distanceTo Vec3.length Vec3.sub nodeK0 nodeK1
  dsimp only
  exact sqrt_eval (by norm_num) (by norm_num)

lemma distK02 : Vec3.distanceTo (nd cfgK 0).pos (nd cfgK 2).pos = 3 := by
  show Vec3.distanceTo nodeK0.pos nodeK2.pos = 3
  unfold Vec3.distanceTo Vec3.length Vec3.sub nodeK0 nodeK2
  dsimp only
  exact sqrt_eval (by norm_num) (by norm_num)

lemma distK03 : Vec3.distanceTo (nd cfgK 0).pos (nd cfgK 3).pos = 7 := by
  show Vec3.distanceTo nodeK0.pos nodeK3.pos = 7
  unfold Vec3.distanceTo Vec3.length Vec3.sub nodeK0 nodeK3
  dsimp only
  exact sqrt_eval (by norm_num) (by norm_num)

lemma distK10 : Vec3.distanceTo (nd cfgK 1).pos (nd cfgK 0).pos = 1 := by
  show Vec3.distanceTo nodeK1.pos nodeK0.pos = 1
  unfold Vec3.distanceTo Vec3.length Vec3.sub nodeK1 nodeK0
  dsimp only
  exact sqrt_eval (by norm_num) (by norm_num)

lemma distK12 : Vec3.distanceTo (nd cfgK 1).pos (nd cfgK 2).pos = 2 := by
  show Vec3.distanceTo nodeK1.pos nodeK2.pos = 2
  unfold Vec3.distanceTo Vec3.length Vec3.sub nodeK1 nodeK2
  dsimp only
  exact sqrt_eval (by norm_num) (by norm_num)

lemma distK13 : Vec3.distanceTo (nd cfgK 1).pos (nd cfgK 3).pos = 6 := by
  show Vec3.distanceTo nodeK1.pos nodeK3.pos = 6
  unfold Vec3.distanceTo Vec3.length Vec3.sub nodeK1 nodeK3
  dsimp only
  exact sqrt_eval (by norm_num) (by norm_num)

lemma distK20 : Vec3.distanceTo (nd cfgK 2).pos (nd cfgK 0).pos = 3 := by
  show Vec3.distanceTo nodeK2.pos nodeK0.pos = 3
  unfold Vec3.distanceTo Vec3.length Vec3.sub nodeK2 nodeK0
  dsimp only
  exact sqrt_eval (by norm_num) (by norm_num)

lemma distK21 : Vec3.distanceTo (nd cfgK 2).pos (nd cfgK 1).pos = 2 := by
  show Vec3.distanceTo nodeK2.pos nodeK1.pos = 2
  unfold Vec3.distanceTo Vec3.length Vec3.sub nodeK2 nodeK1
  dsimp only
  exact sqrt_eval (by norm_num) (by norm_num)

lemma distK23 : Vec3.distanceTo (nd cfgK 2).pos (nd cfgK 3).pos = 4 := by
  show Vec3.distanceTo nodeK2.pos nodeK3.pos = 4
  unfold Vec3.distanceTo Vec3.length Vec3.sub nodeK2 nodeK3
  dsimp only
  exact sqrt_eval (by norm_num) (by norm_num)

lemma distK30 : Vec3.distanceTo (nd cfgK 3).pos (nd cfgK 0).pos = 7 := by
  show Vec3.distanceTo nodeK3.pos nodeK0.pos = 7
  unfold Vec3.distanceTo Vec3.length Vec3.sub nodeK3 nodeK0
  dsimp only
  exact sqrt_eval (by norm_num) (by norm_num)

lemma distK31 : Vec3.distanceTo (nd cfgK 3).pos (nd cfgK 1).pos = 6 := by
  show Vec3.distanceTo nodeK3.pos nodeK1.pos = 6
  unfold Vec3.distanceTo Vec3.length Vec3.sub nodeK3 nodeK1
  dsimp only
  exact sqrt_eval (by norm_num) (by norm_num)

lemma distK32 : Vec3.distanceTo (nd cfgK 3).pos (nd cfgK 2).pos = 4 := by
  show Vec3.distanceTo nodeK3.pos nodeK2.pos = 4
  unfold Vec3.distanceTo Vec3.length Vec3.sub nodeK3 nodeK2
  dsimp only
  exact sqrt_eval (by norm_num) (by norm_num)

lemma nbrsK0 : neighborsOf cfgK 0 (effectiveNeighbors cfgK.length 3) =
    [⟨"a-b", 1⟩, ⟨"b-c", 3⟩, ⟨"c", 7⟩] := by
  rw [show effectiveNeighbors cfgK.length 3 = 3 from rfl]
  unfold neighborsOf
  rw [show ((List.range cfgK.length).filter fun j => ¬ j = 0) = [1, 2, 3] from rfl]
  simp only [List.map_cons, List.map_nil]
  rw [distK01, distK02, distK03]
  norm_num [nbrSort, nbrInsert, List.take]
  exact ⟨rfl, rfl, rfl⟩

lemma nbrsK1 : neighborsOf cfgK 1 (effectiveNeighbors cfgK.length 3) =
    [⟨"a", 1⟩, ⟨"b-c", 2⟩, ⟨"c", 6⟩] := by
  rw [show effectiveNeighbors cfgK.length 3 = 3 from rfl]
  unfold neighborsOf
  rw [show ((List.range cfgK.length).filter fun j => ¬ j = 1) = [0, 2, 3] from rfl]
  simp only [List.map_cons, List.map_nil]
  rw [distK10, distK12, distK13]
  norm_num [nbrSort, nbrInsert, List.take]
  exact ⟨rfl, rfl, rfl⟩

lemma nbrsK2 : neighborsOf cfgK 2 (effectiveNeighbors cfgK.length 3) =
    [⟨"a-b", 2⟩, ⟨"a", 3⟩, ⟨"c", 4⟩] := by
  rw [show effectiveNeighbors cfgK.length 3 = 3 from rfl]
  unfold neighborsOf
  rw [show ((List.range cfgK.length).filter fun j => ¬ j = 2) = [0, 1, 3] from rfl]
  simp only [List.map_cons, List.map_nil]
  rw [distK20, distK21, distK23]
  norm_num [nbrSort, nbrInsert, List.take]
  exact ⟨rfl, rfl, rfl⟩

lemma nbrsK3 : neighborsOf cfgK 3 (effectiveNeighbors cfgK.length 3) =
    [⟨"b-c", 4⟩, ⟨"a-b", 6⟩, ⟨"a", 7⟩] := by
  rw [show effectiveNeighbors cfgK.length 3 = 3 from rfl]
  unfold neighborsOf
  rw [show ((List.range cfgK.length).filter fun j => ¬ j = 3) = [0, 1, 2] from rfl]
  simp only [List.map_cons, List.map_nil]
  rw [distK30, distK31, distK32]
  norm_num [nbrSort, nbrInsert, List.take]
  exact ⟨rfl, rfl, rfl⟩

lemma knnEdgesK_pairs :
    (kNNEdges cfgK ConnectionStyle.straight 3).map (fun e => (e.nodeAId, e.nodeBId)) =
      [("a", "a-b"), ("a", "b-c"), ("a", "c"), ("a-b", "b-c"), ("b-c", "c")] := by
  unfold kNNEdges knnState
  rw [show List.range cfgK.length = [0, 1, 2, 3] from rfl]
  simp only [List.foldl_cons, List.foldl_nil]
  rw [nbrsK0, nbrsK1, nbrsK2, nbrsK3]
  rfl

/-- Claim C5 (counterexample): four nodes at distinct positions with
k = N-1 = 3, yet the edge set is not complete: the nodes with ids
`"a-b"` and `"c"` never get an edge because their dedup key `"a-b-c"`
collides with the key of the distinct pair `("a", "b-c")`. -/
theorem knn_complete_graph_cex :
    2 ≤ cfgK.length ∧ (cfgK.map NodeData.id).Nodup ∧
      cfgK.Pairwise (fun n m => n.pos ≠ m.pos) ∧ cfgK.length - 1 ≤ 3 ∧
      "a-b" ∈ cfgK.map NodeData.id ∧ "c" ∈ cfgK.map NodeData.id ∧
      ¬ ∃ e ∈ kNNEdges cfgK ConnectionStyle.straight 3,
          (e.nodeAId = "a-b" ∧ e.nodeBId = "c") ∨
            (e.nodeAId = "c" ∧ e.nodeBId = "a-b") := by
  refine ⟨by norm_num [cfgK], ?_, ?_, by norm_num [cfgK], ?_, ?_, ?_⟩
  · rw [show cfgK.map NodeData.id = ["a", "a-b", "b-c", "c"] from rfl]
    decide
  · have hne : ∀ a b : ℝ, a ≠ b → (⟨a, 0, 0⟩ : Vec3) ≠ ⟨b, 0, 0⟩ := by
      intro a b hab h
      exact hab (congrArg Vec3.x h)
    refine List.Pairwise.cons ?_ (List.Pairwise.cons ?_
      (List.Pairwise.cons ?_ (List.pairwise_singleton _ _)))
    · intro m hm
      rcases List.mem_cons.mp hm with h | hm
      · rw [h]; exact hne 0 1 (by norm_num)
      rcases List.mem_cons.mp hm with h | hm
      · rw [h]; exact hne 0 3 (by norm_num)
      rcases List.mem_cons.mp hm with h | hm
      · rw [h]; exact hne 0 7 (by norm_num)
      · simp at hm
    · intro m hm
      rcases List.mem_cons.mp hm with h | hm
      · rw [h]; exact hne 1 3 (by norm_num)
      rcases List.mem_cons.mp hm with h | hm
      · rw [h]; exact hne 1 7 (by norm_num)
      · simp at hm
    · intro m hm
      rcases List.mem_cons.mp hm with h | hm
      · rw [h]; exact hne 3 7 (by norm_num)
      · simp at hm
  · rw [show cfgK.map NodeData.id = ["a", "a-b", "b-c", "c"] from rfl]
    decide
  · rw [show cfgK.map NodeData.id = ["a", "a-b", "b-c", "c"] from rfl]
    decide
  · rintro ⟨e, he, hor⟩
    have hm : (e.nodeAId, e.nodeBId) ∈
        (kNNEdges cfgK ConnectionStyle.straight 3).map (fun e => (e.nodeAId, e.nodeBId)) :=
      List.mem_map_of_mem _ he
    rw [knnEdgesK_pairs] at hm
    rcases hor with ⟨h1, h2⟩ | ⟨h1, h2⟩ <;> rw [h1, h2] at hm <;> revert hm <;> decide


/-- The signed distance of node `m` against the plane of the (ordered)
triple `(na, nb, nc)` — the quantity the hull's side scan thresholds. -/
def sideDot (na nb nc m : NodeData) : ℝ :=
  Vec3.dot
    (Vec3.normalize (Vec3.cross (Vec3.sub nb.pos na.pos) (Vec3.sub nc.pos na.pos)))
    (Vec3.sub m.pos na.pos)

/-- `Math.sign` on a nonzero quantity. -/
def signOf (d : ℝ) : ℤ := if 0 < d then 1 else -1

/-- `dot` of the scan for one other node. -/
def dotOf (normal p1 : Vec3) (m : NodeData) : ℝ := Vec3.dot normal (Vec3.sub m.pos p1)

/-- The side scan from an arbitrary running state. -/
def scanFold (normal p1 : Vec3) (st : Option ℤ) (others : List NodeData) : Option ℤ :=
  others.foldl
    (fun st m =>
      match st with
      | Option.none => Option.none
      | some s => scanStep normal p1 s m.pos)
    st

lemma scanList_eq_scanFold (normal p1 : Vec3) (others : List NodeData) :
    scanList normal p1 others = scanFold normal p1 (some 0) others := rfl

lemma scanFold_none (normal p1 : Vec3) (others : List NodeData) :
    scanFold normal p1 Option.none others = Option.none := by
  induction others with
  | nil => rfl
  | cons m rest ih =>
    unfold scanFold
    rw [List.foldl_cons]
    exact ih

lemma scanStep_eq (normal p1 : Vec3) (s : ℤ) (pm : Vec3) :
    scanStep normal p1 s pm =
      if 1e-4 < |Vec3.dot normal (Vec3.sub pm p1)| then
        if s = 0 then some (signOf (Vec3.dot normal (Vec3.sub pm p1)))
        else if s ≠ signOf (Vec3.dot normal (Vec3.sub pm p1)) then Option.none
        else some s
      else some s := rfl

lemma scanFold_isSome_nonzero (normal p1 : Vec3) (s : ℤ) (hs : s ≠ 0) :
    ∀ others : List NodeData,
      (scanFold normal p1 (some s) others).isSome = true ↔
        ∀ m ∈ others, 1e-4 < |dotOf normal p1 m| → signOf (dotOf normal p1 m) = s := by
  intro others
  induction others generalizing s with
  | nil =>
    simp [scanFold]
  | cons m rest ih =>
    unfold scanFold
    rw [List.foldl_cons]
    show ((scanFold normal p1 (scanStep normal p1 s m.pos) rest).isSome = true) ↔ _
    rw [scanStep_eq]
    by_cases hq : 1e-4 < |Vec3.dot normal (Vec3.sub m.pos p1)|
    · rw [if_pos hq, if_neg hs]
      by_cases hcur : s = signOf (Vec3.dot normal (Vec3.sub m.pos p1))
      · rw [if_neg (by simpa using hcur)]
        rw [ih s hs]
        constructor
        · intro h m' hm' hq'
          rcases List.mem_cons.mp hm' with rfl | hm'
          · exact hcur.symm
          · exact h m' hm' hq'
        · intro h m' hm' hq'
          exact h m' (List.mem_cons_of_mem m hm') hq'
      · rw [if_pos (by simpa using hcur)]
        rw [scanFold_none]
        simp only [Option.isSome_none, Bool.false_eq_true, false_iff]
        intro hcontra
        exact hcur ((hcontra m (List.mem_cons_self m rest) hq).symm)
    · rw [if_neg hq]
      rw [ih s hs]
      constructor
      · intro h m' hm' hq'
        rcases List.mem_cons.mp hm' with rfl | hm'
        · exact absurd hq' hq
        · exact h m' hm' hq'
      · intro h m' hm' hq'
        exact h m' (List.mem_cons_of_mem m hm') hq'

lemma signOf_ne_zero (d : ℝ) : signOf d ≠ 0 := by
  unfold signOf
  split <;> decide

lemma scanFold_isSome_zero (normal p1 : Vec3) :
    ∀ others : List NodeData,
      (scanFold normal p1 (some 0) others).isSome = true ↔
        ∀ m1 ∈ others, ∀ m2 ∈ others,
          1e-4 < |dotOf normal p1 m1| → 1e-4 < |dotOf normal p1 m2| →
            signOf (dotOf normal p1 m1) = signOf (dotOf normal p1 m2) := by
  intro others
  induction others with
  | nil => simp [scanFold]
  | cons m rest ih =>
    unfold scanFold
    rw [List.foldl_cons]
    show ((scanFold normal p1 (scanStep normal p1 0 m.pos) rest).isSome = true) ↔ _
    rw [scanStep_eq]
    by_cases hq : 1e-4 < |Vec3.dot normal (Vec3.sub m.pos p1)|
    · rw [if_pos hq, if_pos rfl]
      rw [scanFold_isSome_nonzero normal p1 _ (signOf_ne_zero _)]
      constructor
      · intro h m1 hm1 m2 hm2 hq1 hq2
        rcases List.mem_cons.mp hm1 with h1 | h1
        · rcases List.mem_cons.mp hm2 with h2 | h2
          · rw [h1, h2]
          · rw [h1]
            exact (h m2 h2 hq2).symm
        · rcases List.mem_cons.mp hm2 with h2 | h2
          · rw [h2]
            exact h m1 h1 hq1
          · exact (h m1 h1 hq1).trans (h m2 h2 hq2).symm
      · intro h m' hm' hq'
        exact h m' (List.mem_cons_of_mem m hm') m (List.mem_cons_self m rest) hq' hq
    · rw [if_neg hq]
      rw [ih]
      constructor
      · intro h m1 hm1 m2 hm2 hq1 hq2
        rcases List.mem_cons.mp hm1 with rfl | hm1
        · exact absurd hq1 hq
        · rcases List.mem_cons.mp hm2 with rfl | hm2
          · exact absurd hq2 hq
          · exact h m1 hm1 m2 hm2 hq1 hq2
      · intro h m1 hm1 m2 hm2 hq1 hq2
        exact h m1 (List.mem_cons_of_mem m hm1) m2 (List.mem_cons_of_mem m hm2) hq1 hq2

/-- The side test as a symmetric property of the scanned nodes: no two of
them lie strictly on opposite sides of the triple's plane. -/
def testNodes (na nb nc : NodeData) (others : List NodeData) : Prop :=
  ∀ m1 ∈ others, ∀ m2 ∈ others,
    1e-4 < |sideDot na nb nc m1| → 1e-4 < |sideDot na nb nc m2| →
      signOf (sideDot na nb nc m1) = signOf (sideDot na nb nc m2)

lemma isFaceTest_iff_testNodes (nodes : List NodeData) (i j k : ℕ) :
    isFaceTest nodes i j k = true ↔
      testNodes (nd nodes i) (nd nodes j) (nd nodes k) (othersOf nodes i j k) := by
  unfold isFaceTest
  dsimp only
  rw [scanList_eq_scanFold, scanFold_isSome_zero]
  rfl

lemma vec_dot_smul (r : ℝ) (a b : Vec3) :
    Vec3.dot (Vec3.smul r a) b = r * Vec3.dot a b := by
  simp only [Vec3.dot, Vec3.smul]
  ring

lemma vec_length_neg (a : Vec3) : (Vec3.smul (-1) a).length = a.length := by
  unfold Vec3.length Vec3.smul
  exact congrArg Real.sqrt (by ring)

lemma vec_normalize_neg (a : Vec3) :
    Vec3.normalize (Vec3.smul (-1) a) = Vec3.smul (-1) (Vec3.normalize a) := by
  unfold Vec3.normalize
  rw [vec_length_neg]
  simp only [Vec3.smul, Vec3.mk.injEq]
  exact ⟨by ring, by ring, by ring⟩

lemma vec_cross_swap (u v : Vec3) : Vec3.cross u v = Vec3.smul (-1) (Vec3.cross v u) := by
  simp only [Vec3.cross, Vec3.smul, Vec3.mk.injEq]
  exact ⟨by ring, by ring, by ring⟩

lemma vec_cross_rot (a b c : Vec3) :
    Vec3.cross (Vec3.sub c b) (Vec3.sub a b) = Vec3.cross (Vec3.sub b a) (Vec3.sub c a) := by
  simp only [Vec3.cross, Vec3.sub, Vec3.mk.injEq]
  exact ⟨by ring, by ring, by ring⟩

lemma normalize_as_smul (a : Vec3) : ∃ r : ℝ, Vec3.normalize a = Vec3.smul r a :=
  ⟨_, rfl⟩

lemma sideDot_swap23 (na nb nc m : NodeData) :
    sideDot na nc nb m = -sideDot na nb nc m := by
  unfold sideDot
  rw [vec_cross_swap (Vec3.sub nc.pos na.pos) (Vec3.sub nb.pos na.pos)]
  rw [vec_normalize_neg, vec_dot_smul]
  ring

lemma sideDot_rot (na nb nc m : NodeData) :
    sideDot nb nc na m = sideDot na nb nc m := by
  unfold sideDot
  rw [vec_cross_rot na.pos nb.pos nc.pos]
  obtain ⟨r, hr⟩ :=
    normalize_as_smul (Vec3.cross (Vec3.sub nb.pos na.pos) (Vec3.sub nc.pos na.pos))
  rw [hr]
  simp only [Vec3.dot, Vec3.smul, Vec3.cross, Vec3.sub]
  ring

lemma sideDot_swap12 (na nb nc m : NodeData) :
    sideDot nb na nc m = -sideDot na nb nc m := by
  rw [sideDot_swap23 nb nc na m, sideDot_rot na nb nc m]

lemma sideDot_rot2 (na nb nc m : NodeData) :
    sideDot nc na nb m = sideDot na nb nc m := by
  rw [sideDot_rot nb nc na m, sideDot_rot na nb nc m]

lemma sideDot_rev (na nb nc m : NodeData) :
    sideDot nc nb na m = -sideDot na nb nc m := by
  rw [sideDot_swap23 nc na nb m, sideDot_rot2 na nb nc m]

lemma signOf_neg_of_ne (d : ℝ) (hd : d ≠ 0) : signOf (-d) = -signOf d := by
  unfold signOf
  rcases lt_trichotomy d 0 with h | h | h
  · rw [if_pos (by linarith), if_neg (by linarith)]
    norm_num
  · exact absurd h hd
  · rw [if_neg (by linarith), if_pos h]

lemma ne_zero_of_qual {d : ℝ} (hq : (1e-4 : ℝ) < |d|) : d ≠ 0 := by
  intro h0
  rw [h0] at hq
  norm_num at hq

lemma testNodes_of_negated {na nb nc na' nb' nc' : NodeData}
    (hD : ∀ m, sideDot na' nb' nc' m = -sideDot na nb nc m) {others : List NodeData}
    (h : testNodes na nb nc others) : testNodes na' nb' nc' others := by
  intro m1 h1 m2 h2 hq1 hq2
  rw [hD m1, abs_neg] at hq1
  rw [hD m2, abs_neg] at hq2
  rw [hD m1, hD m2, signOf_neg_of_ne _ (ne_zero_of_qual hq1),
    signOf_neg_of_ne _ (ne_zero_of_qual hq2), h m1 h1 m2 h2 hq1 hq2]

lemma testNodes_negated {na nb nc na' nb' nc' : NodeData}
    (hD : ∀ m, sideDot na' nb' nc' m = -sideDot na nb nc m) (others : List NodeData) :
    testNodes na' nb' nc' others ↔ testNodes na nb nc others :=
  ⟨testNodes_of_negated fun m => by rw [hD m, neg_neg], testNodes_of_negated hD⟩

lemma testNodes_congr {na nb nc na' nb' nc' : NodeData}
    (hD : ∀ m, sideDot na' nb' nc' m = sideDot na nb nc m) (others : List NodeData) :
    testNodes na' nb' nc' others ↔ testNodes na nb nc others := by
  unfold testNodes
  simp only [hD]

lemma testNodes_perm (na nb nc : NodeData) {o o' : List NodeData} (h : List.Perm o o') :
    testNodes na nb nc o ↔ testNodes na nb nc o' := by
  unfold testNodes
  constructor
  · intro ht m1 h1 m2 h2
    exact ht m1 (h.mem_iff.mpr h1) m2 (h.mem_iff.mpr h2)
  · intro ht m1 h1 m2 h2
    exact ht m1 (h.mem_iff.mp h1) m2 (h.mem_iff.mp h2)

lemma testNodes_swap23 (na nb nc : NodeData) (o : List NodeData) :
    testNodes na nc nb o ↔ testNodes na nb nc o :=
  testNodes_negated (fun m => sideDot_swap23 na nb nc m) o

lemma testNodes_rot (na nb nc : NodeData) (o : List NodeData) :
    testNodes nb nc na o ↔ testNodes na nb nc o :=
  testNodes_congr (fun m => sideDot_rot na nb nc m) o

lemma testNodes_swap12 (na nb nc : NodeData) (o : List NodeData) :
    testNodes nb na nc o ↔ testNodes na nb nc o :=
  testNodes_negated (fun m => sideDot_swap12 na nb nc m) o

lemma testNodes_rot2 (na nb nc : NodeData) (o : List NodeData) :
    testNodes nc na nb o ↔ testNodes na nb nc o :=
  testNodes_congr (fun m => sideDot_rot2 na nb nc m) o

lemma testNodes_rev (na nb nc : NodeData) (o : List NodeData) :
    testNodes nc nb na o ↔ testNodes na nb nc o :=
  testNodes_negated (fun m => sideDot_rev na nb nc m) o

lemma map_nd_range (l : List NodeData) : (List.range l.length).map (nd l) = l := by
  apply List.ext_getElem
  · simp
  · intro i h1 h2
    rw [List.getElem_map, List.getElem_range]
    unfold nd
    rw [List.getD_eq_getElem?_getD, List.getElem?_eq_getElem h2]
    rfl

lemma filter_range_one {n i : ℕ} (hi : i < n) :
    (List.range n).filter (fun m => decide (m = i)) = [i] := by
  induction n with
  | zero => omega
  | succ n ih =>
    rw [List.range_succ, List.filter_append]
    by_cases h : i = n
    · subst h
      have h0 : (List.range i).filter (fun m => decide (m = i)) = [] := by
        apply List.filter_eq_nil_iff.mpr
        intro a ha
        have : a < i := List.mem_range.mp ha
        simp only [decide_eq_true_eq]
        omega
      rw [h0]
      simp
    · have h1 : List.filter (fun m => decide (m = i)) [n] = [] := by
        have hd : (decide (n = i)) = false := decide_eq_false (by omega)
        simp [List.filter_cons, hd]
      rw [ih (by omega), h1, List.append_nil]

lemma filter_range_two {n i j : ℕ} (hij : i < j) (hj : j < n) :
    (List.range n).filter (fun m => decide (m = i ∨ m = j)) = [i, j] := by
  induction n with
  | zero => omega
  | succ n ih =>
    rw [List.range_succ, List.filter_append]
    by_cases h : j = n
    · subst h
      have h0 : (List.range j).filter (fun m => decide (m = i ∨ m = j)) =
          (List.range j).filter (fun m => decide (m = i)) := by
        apply List.filter_congr
        intro a ha
        have : a < j := List.mem_range.mp ha
        exact decide_eq_decide.mpr (by omega)
      rw [h0, filter_range_one hij]
      have hd : (decide (j = i ∨ j = j)) = true := decide_eq_true (by omega)
      simp [List.filter_cons, hd]
    · have h1 : List.filter (fun m => decide (m = i ∨ m = j)) [n] = [] := by
        have hd : (decide (n = i ∨ n = j)) = false := decide_eq_false (by omega)
        simp only [List.filter_cons, hd, List.filter_nil]
        rfl
      rw [ih (by omega), h1, List.append_nil]

lemma filter_range_three {n i j k : ℕ} (hij : i < j) (hjk : j < k) (hk : k < n) :
    (List.range n).filter (fun m => decide (m = i ∨ m = j ∨ m = k)) = [i, j, k] := by
  induction n with
  | zero => omega
  | succ n ih =>
    rw [List.range_succ, List.filter_append]
    by_cases h : k = n
    · subst h
      have h0 : (List.range k).filter (fun m => decide (m = i ∨ m = j ∨ m = k)) =
          (List.range k).filter (fun m => decide (m = i ∨ m = j)) := by
        apply List.filter_congr
        intro a ha
        have : a < k := List.mem_range.mp ha
        exact decide_eq_decide.mpr (by omega)
      rw [h0, filter_range_two hij (by omega)]
      have hd : (decide (k = i ∨ k = j ∨ k = k)) = true := decide_eq_true (by omega)
      simp [List.filter_cons, hd]
    · have h1 : List.filter (fun m => decide (m = i ∨ m = j ∨ m = k)) [n] = [] := by
        have hd : (decide (n = i ∨ n = j ∨ n = k)) = false := decide_eq_false (by omega)
        simp only [List.filter_cons, hd, List.filter_nil]
        rfl
      rw [ih (by omega), h1, List.append_nil]

lemma perm_split_triple (l : List NodeData) {i j k : ℕ}
    (hij : i < j) (hjk : j < k) (hk : k < l.length) :
    List.Perm l (nd l i :: nd l j :: nd l k :: othersOf l i j k) := by
  have hpart :=
    (List.filter_append_perm (fun m => decide (m = i ∨ m = j ∨ m = k))
      (List.range l.length)).symm
  rw [filter_range_three hij hjk hk] at hpart
  have hcompl : (List.range l.length).filter
        (fun m => !(decide (m = i ∨ m = j ∨ m = k))) =
      (List.range l.length).filter (fun m => decide ¬(m = i ∨ m = j ∨ m = k)) := by
    apply List.filter_congr
    intro x _
    exact decide_not.symm
  rw [hcompl] at hpart
  have hmap := hpart.map (nd l)
  rw [map_nd_range, List.map_append] at hmap
  exact hmap

lemma exists_index_nd {l : List NodeData} {a : NodeData} (h : a ∈ l) :
    ∃ i, i < l.length ∧ nd l i = a := by
  obtain ⟨i, hi, he⟩ := List.getElem_of_mem h
  refine ⟨i, hi, ?_⟩
  unfold nd
  rw [List.getD_eq_getElem?_getD, List.getElem?_eq_getElem hi]
  exact he

lemma perm3_swap23 {α : Type} (a b c : α) : List.Perm [a, c, b] [a, b, c] :=
  List.Perm.cons a (List.Perm.swap b c [])

lemma perm3_swap12 {α : Type} (a b c : α) : List.Perm [b, a, c] [a, b, c] :=
  List.Perm.swap a b [c]

lemma perm3_rot {α : Type} (a b c : α) : List.Perm [b, c, a] [a, b, c] :=
  (List.Perm.cons b (List.Perm.swap a c [])).trans (List.Perm.swap a b [c])

lemma perm3_rot2 {α : Type} (a b c : α) : List.Perm [c, a, b] [a, b, c] :=
  (List.Perm.swap a c [b]).trans (List.Perm.cons a (List.Perm.swap b c []))

lemma perm3_rev {α : Type} (a b c : α) : List.Perm [c, b, a] [a, b, c] :=
  (List.Perm.swap b c [a]).trans (perm3_rot a b c)

lemma exists_sorted_triple {l : List NodeData} {na nb nc : NodeData}
    (ha : na ∈ l) (hb : nb ∈ l) (hc : nc ∈ l)
    (hab : na ≠ nb) (hac : na ≠ nc) (hbc : nb ≠ nc) :
    ∃ i j k, i < j ∧ j < k ∧ k < l.length ∧
      List.Perm [nd l i, nd l j, nd l k] [na, nb, nc] := by
  obtain ⟨i0, h0, e0⟩ := exists_index_nd ha
  obtain ⟨i1, h1, e1⟩ := exists_index_nd hb
  obtain ⟨i2, h2, e2⟩ := exists_index_nd hc
  have h01 : i0 ≠ i1 := fun h => hab (by rw [← e0, ← e1, h])
  have h02 : i0 ≠ i2 := fun h => hac (by rw [← e0, ← e2, h])
  have h12 : i1 ≠ i2 := fun h => hbc (by rw [← e1, ← e2, h])
  rcases lt_or_gt_of_ne h01 with hlt01 | hlt01 <;>
    rcases lt_or_gt_of_ne h02 with hlt02 | hlt02 <;>
      rcases lt_or_gt_of_ne h12 with hlt12 | hlt12
  · exact ⟨i0, i1, i2, hlt01, hlt12, h2, by rw [e0, e1, e2]⟩
  · exact ⟨i0, i2, i1, hlt02, hlt12, h1, by rw [e0, e1, e2]; exact perm3_swap23 na nb nc⟩
  · omega
  · exact ⟨i2, i0, i1, hlt02, hlt01, h1, by rw [e0, e1, e2]; exact perm3_rot2 na nb nc⟩
  · exact ⟨i1, i0, i2, hlt01, hlt02, h2, by rw [e0, e1, e2]; exact perm3_swap12 na nb nc⟩
  · omega
  · exact ⟨i1, i2, i0, hlt12, hlt02, h0, by rw [e0, e1, e2]; exact perm3_rot na nb nc⟩
  · exact ⟨i2, i1, i0, hlt12, hlt01, h0, by rw [e0, e1, e2]; exact perm3_rev na nb nc⟩

/-- The order-free content of a face record: its node ids, corner
positions, control points and corner colors, each as a multiset. -/
def faceView (F : FaceData) :
    Multiset String × Multiset Vec3 × Multiset Vec3 × Multiset String :=
  ({F.nodeIds.1, F.nodeIds.2.1, F.nodeIds.2.2},
   {F.positions.1, F.positions.2.1, F.positions.2.2},
   {F.controlPoints.1, F.controlPoints.2.1, F.controlPoints.2.2},
   {F.colors.1, F.colors.2.1, F.colors.2.2})

/-- The face view a triple of nodes would produce. -/
def viewOfTriple (style : ConnectionStyle) (na nb nc : NodeData) :
    Multiset String × Multiset Vec3 × Multiset Vec3 × Multiset String :=
  ({na.id, nb.id, nc.id},
   {na.pos, nb.pos, nc.pos},
   {getEdgeControlPoint na.pos nb.pos style, getEdgeControlPoint nb.pos nc.pos style,
     getEdgeControlPoint nc.pos na.pos style},
   {na.color, nb.color, nc.color})

lemma faceView_mkFace (l : List NodeData) (style : ConnectionStyle) (i j k : ℕ) :
    faceView (mkFace l style i j k) = viewOfTriple style (nd l i) (nd l j) (nd l k) := rfl

lemma mset2_swap {α : Type} (a b : α) : ({b, a} : Multiset α) = {a, b} := by
  simp only [Multiset.insert_eq_cons]
  rw [← Multiset.cons_zero a, ← Multiset.cons_zero b, Multiset.cons_swap]

lemma mset3_swap23 {α : Type} (a b c : α) : ({a, c, b} : Multiset α) = {a, b, c} := by
  simp only [Multiset.insert_eq_cons]
  rw [← Multiset.cons_zero b, ← Multiset.cons_zero c, Multiset.cons_swap c b]

lemma mset3_swap12 {α : Type} (a b c : α) : ({b, a, c} : Multiset α) = {a, b, c} := by
  simp only [Multiset.insert_eq_cons]
  rw [Multiset.cons_swap b a]

lemma mset3_rot {α : Type} (a b c : α) : ({b, c, a} : Multiset α) = {a, b, c} := by
  simp only [Multiset.insert_eq_cons]
  rw [← Multiset.cons_zero a, ← Multiset.cons_zero c, Multiset.cons_swap c a,
    Multiset.cons_swap b a]

lemma mset3_rot2 {α : Type} (a b c : α) : ({c, a, b} : Multiset α) = {a, b, c} := by
  simp only [Multiset.insert_eq_cons]
  rw [← Multiset.cons_zero b, ← Multiset.cons_zero c, Multiset.cons_swap c a,
    Multiset.cons_swap c b]

lemma mset3_rev {α : Type} (a b c : α) : ({c, b, a} : Multiset α) = {a, b, c} := by
  simp only [Multiset.insert_eq_cons]
  rw [← Multiset.cons_zero a, ← Multiset.cons_zero c, Multiset.cons_swap b a,
    Multiset.cons_swap c a, Multiset.cons_swap c b]

lemma getEdgeControlPoint_symm (p q : Vec3) (style : ConnectionStyle) :
    getEdgeControlPoint q p style = getEdgeControlPoint p q style := by
  unfold getEdgeControlPoint
  have h : Vec3.add q p = Vec3.add p q := by
    simp only [Vec3.add, Vec3.mk.injEq]
    exact ⟨by ring, by ring, by ring⟩
  rw [h]

lemma viewOfTriple_rot (style : ConnectionStyle) (na nb nc : NodeData) :
    viewOfTriple style nb nc na = viewOfTriple style na nb nc := by
  unfold viewOfTriple
  exact congrArg₂ Prod.mk (mset3_rot _ _ _)
    (congrArg₂ Prod.mk (mset3_rot _ _ _)
      (congrArg₂ Prod.mk (mset3_rot _ _ _) (mset3_rot _ _ _)))

lemma viewOfTriple_swap23 (style : ConnectionStyle) (na nb nc : NodeData) :
    viewOfTriple style na nc nb = viewOfTriple style na nb nc := by
  unfold viewOfTriple
  rw [getEdgeControlPoint_symm nc.pos na.pos style,
    getEdgeControlPoint_symm nb.pos nc.pos style,
    getEdgeControlPoint_symm na.pos nb.pos style]
  exact congrArg₂ Prod.mk (mset3_swap23 _ _ _)
    (congrArg₂ Prod.mk (mset3_swap23 _ _ _)
      (congrArg₂ Prod.mk (mset3_rev _ _ _) (mset3_swap23 _ _ _)))

lemma viewOfTriple_swap12 (style : ConnectionStyle) (na nb nc : NodeData) :
    viewOfTriple style nb na nc = viewOfTriple style na nb nc := by
  rw [viewOfTriple_swap23 style nb nc na, viewOfTriple_rot style na nb nc]

lemma viewOfTriple_rot2 (style : ConnectionStyle) (na nb nc : NodeData) :
    viewOfTriple style nc na nb = viewOfTriple style na nb nc := by
  rw [viewOfTriple_rot style nb nc na, viewOfTriple_rot style na nb nc]

lemma viewOfTriple_rev (style : ConnectionStyle) (na nb nc : NodeData) :
    viewOfTriple style nc nb na = viewOfTriple style na nb nc := by
  rw [viewOfTriple_swap23 style nc na nb, viewOfTriple_rot2 style na nb nc]

/-- The order-free content of an edge record: the unordered id pair, the
unordered endpoint pair, and the control point. (The edge color is the
lower-indexed node color and is genuinely order dependent.) -/
def edgeView (e : EdgeData) : Multiset String × Multiset Vec3 × Vec3 :=
  ({e.nodeAId, e.nodeBId}, {e.start, e.stop}, e.mid)

/-- The edge view a pair of nodes would produce. -/
def edgeViewOf (style : ConnectionStyle) (x y : NodeData) :
    Multiset String × Multiset Vec3 × Vec3 :=
  ({x.id, y.id}, {x.pos, y.pos}, getEdgeControlPoint x.pos y.pos style)

lemma edgeView_mkEdge (l : List NodeData) (style : ConnectionStyle) (a b : ℕ) :
    edgeView (mkEdge l style a b) = edgeViewOf style (nd l a) (nd l b) := rfl

lemma edgeViewOf_symm (style : ConnectionStyle) (x y : NodeData) :
    edgeViewOf style y x = edgeViewOf style x y := by
  unfold edgeViewOf
  rw [getEdgeControlPoint_symm x.pos y.pos style]
  exact congrArg₂ Prod.mk (mset2_swap _ _)
    (congrArg₂ Prod.mk (mset2_swap _ _) rfl)

lemma nd_index_eq {nodes : List NodeData} (hnodup : (nodes.map NodeData.id).Nodup)
    {i j : ℕ} (hi : i < nodes.length) (hj : j < nodes.length)
    (h : (nd nodes i).id = (nd nodes j).id) : i = j := by
  by_contra hne
  exact nd_id_ne hnodup hi hj hne h

lemma hull_pair_edge_mem {nodes : List NodeData} {style : ConnectionStyle}
    (hnodup : (nodes.map NodeData.id).Nodup)
    (hdash : ∀ n ∈ nodes, dashFree n.id)
    {p : ℕ × ℕ} (hp : p ∈ hullSidePairs nodes) :
    mkEdge nodes style p.1 p.2 ∈ hullEdges nodes style := by
  obtain ⟨hiff, hmap, hsound⟩ :=
    addPair_fold_inv nodes style (hullSidePairs nodes) ([], []) []
      (by simp) rfl (by simp)
  have hkey : edgeKey nodes p.1 p.2 ∈
      ((hullSidePairs nodes).foldl (addPair nodes style) ([], [])).1 :=
    (hiff _).mpr ⟨p, by simpa using hp, rfl⟩
  rw [← hmap] at hkey
  obtain ⟨e, he, hek⟩ := List.mem_map.mp hkey
  obtain ⟨q, hq, rfl⟩ := hsound e he
  obtain ⟨hq1, hq2, _⟩ := hullSidePairs_bound (by simpa using hq)
  obtain ⟨hp1, hp2, _⟩ := hullSidePairs_bound hp
  have hkey' : edgeKey nodes q.1 q.2 = edgeKey nodes p.1 p.2 := hek
  have hinj := dash_key_inj (hdash _ (nd_mem hq1)) (hdash _ (nd_mem hp1)) hkey'
  have e1 : q.1 = p.1 := nd_index_eq hnodup hq1 hp1 hinj.1
  have e2 : q.2 = p.2 := nd_index_eq hnodup hq2 hp2 hinj.2
  rw [← e1, ← e2]
  exact he

lemma perm_cons3_cancel {α : Type} {x y z a b c : α} {t t' : List α}
    (h3 : List.Perm [x, y, z] [a, b, c])
    (h : List.Perm (x :: y :: z :: t) (a :: b :: c :: t')) : List.Perm t t' := by
  have h2 : List.Perm (a :: b :: c :: t) (a :: b :: c :: t') :=
    ((h3.append_right t).symm.trans h)
  exact h2.cons_inv.cons_inv.cons_inv

/-- The permutation-invariant description of a hull face: some ordering of
three nodes together with the remaining nodes passes the side test and
produces the view. -/
def FaceSpec (l : List NodeData) (style : ConnectionStyle)
    (v : Multiset String × Multiset Vec3 × Multiset Vec3 × Multiset String) : Prop :=
  ∃ na nb nc : NodeData, ∃ others : List NodeData,
    List.Perm l (na :: nb :: nc :: others) ∧
    testNodes na nb nc others ∧ v = viewOfTriple style na nb nc

/-- The permutation-invariant description of a hull edge: a side of a
qualifying triple, viewed without order. -/
def EdgeSpec (l : List NodeData) (style : ConnectionStyle)
    (w : Multiset String × Multiset Vec3 × Vec3) : Prop :=
  ∃ na nb nc : NodeData, ∃ others : List NodeData,
    List.Perm l (na :: nb :: nc :: others) ∧ testNodes na nb nc others ∧
    (w = edgeViewOf style na nb ∨ w = edgeViewOf style nb nc ∨ w = edgeViewOf style na nc)

lemma hullSidePairs_sound {l : List NodeData} {p : ℕ × ℕ}
    (hp : p ∈ hullSidePairs l) :
    ∃ i j k, i < j ∧ j < k ∧ k < l.length ∧ isFaceTest l i j k = true ∧
      (p = (i, j) ∨ p = (j, k) ∨ p = (i, k)) := by
  unfold hullSidePairs at hp
  obtain ⟨t, ht, hmem⟩ := List.mem_flatMap.mp hp
  obtain ⟨hij, hjk, hk⟩ := (mem_hullTriples l.length t.1 t.2.1 t.2.2).mp ht
  by_cases htest : isFaceTest l t.1 t.2.1 t.2.2 = true
  · rw [if_pos htest] at hmem
    refine ⟨t.1, t.2.1, t.2.2, hij, hjk, hk, htest, ?_⟩
    rcases List.mem_cons.mp hmem with h | hmem
    · exact Or.inl h
    · rcases List.mem_cons.mp hmem with h | hmem
      · exact Or.inr (Or.inl h)
      · rw [List.mem_singleton] at hmem
        exact Or.inr (Or.inr hmem)
  · rw [if_neg htest] at hmem
    simp at hmem

lemma hullEdges_sound {l : List NodeData} {style : ConnectionStyle} {e : EdgeData}
    (he : e ∈ hullEdges l style) :
    ∃ p ∈ hullSidePairs l, e = mkEdge l style p.1 p.2 := by
  obtain ⟨_, _, hsound⟩ :=
    addPair_fold_inv l style (hullSidePairs l) ([], []) []
      (by simp) rfl (by simp)
  obtain ⟨p, hp, he'⟩ := hsound e he
  exact ⟨p, by simpa using hp, he'⟩

lemma spec_triple_realized {l : List NodeData} (hnodup : (l.map NodeData.id).Nodup)
    {na nb nc : NodeData} {others : List NodeData}
    (hperm : List.Perm l (na :: nb :: nc :: others))
    (htest : testNodes na nb nc others) :
    ∃ i j k, i < j ∧ j < k ∧ k < l.length ∧ isFaceTest l i j k = true ∧
      (∀ style, viewOfTriple style (nd l i) (nd l j) (nd l k) =
        viewOfTriple style na nb nc) ∧
      (∀ style (w : Multiset String × Multiset Vec3 × Vec3),
        (w = edgeViewOf style na nb ∨ w = edgeViewOf style nb nc ∨
          w = edgeViewOf style na nc) →
        (w = edgeViewOf style (nd l i) (nd l j) ∨
          w = edgeViewOf style (nd l j) (nd l k) ∨
          w = edgeViewOf style (nd l i) (nd l k))) := by
  have hlnodup : l.Nodup := hnodup.of_map
  have hcons : (na :: nb :: nc :: others).Nodup := hperm.nodup_iff.mp hlnodup
  obtain ⟨hna, hrest⟩ := List.nodup_cons.mp hcons
  obtain ⟨hnb, _⟩ := List.nodup_cons.mp hrest
  have hab : na ≠ nb := fun h =>
    hna (by rw [h]; exact List.mem_cons_self nb (nc :: others))
  have hac : na ≠ nc := fun h =>
    hna (by rw [h]; exact List.mem_cons_of_mem nb (List.mem_cons_self nc others))
  have hbc : nb ≠ nc := fun h =>
    hnb (by rw [h]; exact List.mem_cons_self nc others)
  have ha : na ∈ l := hperm.mem_iff.mpr (List.mem_cons_self na _)
  have hb : nb ∈ l :=
    hperm.mem_iff.mpr (List.mem_cons_of_mem na (List.mem_cons_self nb _))
  have hc : nc ∈ l :=
    hperm.mem_iff.mpr
      (List.mem_cons_of_mem na (List.mem_cons_of_mem nb (List.mem_cons_self nc _)))
  obtain ⟨i, j, k, hij, hjk, hk, hperm3⟩ := exists_sorted_triple ha hb hc hab hac hbc
  have hsplit := perm_split_triple l hij hjk hk
  have hothers : List.Perm (othersOf l i j k) others :=
    perm_cons3_cancel hperm3 (hsplit.symm.trans hperm)
  have htest' : testNodes na nb nc (othersOf l i j k) :=
    (testNodes_perm na nb nc hothers).mpr htest
  refine ⟨i, j, k, hij, hjk, hk, ?_, ?_, ?_⟩
  rotate_left
  · intro style
    rcases triple_perm_cases hperm3 with ⟨hx, hy, hz⟩ | ⟨hx, hy, hz⟩ | ⟨hx, hy, hz⟩ |
      ⟨hx, hy, hz⟩ | ⟨hx, hy, hz⟩ | ⟨hx, hy, hz⟩
    · rw [hx, hy, hz]
    · rw [hx, hy, hz, viewOfTriple_swap23]
    · rw [hx, hy, hz, viewOfTriple_swap12]
    · rw [hx, hy, hz, viewOfTriple_rot]
    · rw [hx, hy, hz, viewOfTriple_rot2]
    · rw [hx, hy, hz, viewOfTriple_rev]
  · intro style w h
    rcases triple_perm_cases hperm3 with ⟨hx, hy, hz⟩ | ⟨hx, hy, hz⟩ | ⟨hx, hy, hz⟩ |
      ⟨hx, hy, hz⟩ | ⟨hx, hy, hz⟩ | ⟨hx, hy, hz⟩
    · rw [hx, hy, hz]
      exact h
    · rw [hx, hy, hz]
      rcases h with h | h | h
      · exact Or.inr (Or.inr h)
      · rw [edgeViewOf_symm style nb nc]
        exact Or.inr (Or.inl h)
      · exact Or.inl h
    · rw [hx, hy, hz]
      rcases h with h | h | h
      · rw [edgeViewOf_symm style na nb]
        exact Or.inl h
      · exact Or.inr (Or.inr h)
      · exact Or.inr (Or.inl h)
    · rw [hx, hy, hz]
      rcases h with h | h | h
      · rw [edgeViewOf_symm style na nb]
        exact Or.inr (Or.inr h)
      · exact Or.inl h
      · rw [edgeViewOf_symm style na nc]
        exact Or.inr (Or.inl h)
    · rw [hx, hy, hz]
      rcases h with h | h | h
      · exact Or.inr (Or.inl h)
      · rw [edgeViewOf_symm style nb nc]
        exact Or.inr (Or.inr h)
      · rw [edgeViewOf_symm style na nc]
        exact Or.inl h
    · rw [hx, hy, hz]
      rcases h with h | h | h
      · rw [edgeViewOf_symm style na nb]
        exact Or.inr (Or.inl h)
      · rw [edgeViewOf_symm style nb nc]
        exact Or.inl h
      · rw [edgeViewOf_symm style na nc]
        exact Or.inr (Or.inr h)
  · apply (isFaceTest_iff_testNodes l i j k).mpr
    rcases triple_perm_cases hperm3 with ⟨hx, hy, hz⟩ | ⟨hx, hy, hz⟩ | ⟨hx, hy, hz⟩ |
      ⟨hx, hy, hz⟩ | ⟨hx, hy, hz⟩ | ⟨hx, hy, hz⟩
    · rw [hx, hy, hz]
      exact htest'
    · rw [hx, hy, hz]
      exact (testNodes_swap23 na nb nc _).mpr htest'
    · rw [hx, hy, hz]
      exact (testNodes_swap12 na nb nc _).mpr htest'
    · rw [hx, hy, hz]
      exact (testNodes_rot na nb nc _).mpr htest'
    · rw [hx, hy, hz]
      exact (testNodes_rot2 na nb nc _).mpr htest'
    · rw [hx, hy, hz]
      exact (testNodes_rev na nb nc _).mpr htest'

lemma mem_faceViews_iff {l : List NodeData} (style : ConnectionStyle)
    (hnodup : (l.map NodeData.id).Nodup)
    (v : Multiset String × Multiset Vec3 × Multiset Vec3 × Multiset String) :
    v ∈ (hullFaces l style).map faceView ↔ FaceSpec l style v := by
  constructor
  · intro hv
    obtain ⟨F, hF, rfl⟩ := List.mem_map.mp hv
    obtain ⟨i, j, k, hij, hjk, hk, htest, rfl⟩ := hullFaces_sound hF
    exact ⟨nd l i, nd l j, nd l k, othersOf l i j k,
      perm_split_triple l hij hjk hk,
      (isFaceTest_iff_testNodes l i j k).mp htest,
      faceView_mkFace l style i j k⟩
  · rintro ⟨na, nb, nc, others, hperm, htest, rfl⟩
    obtain ⟨i, j, k, hij, hjk, hk, htestB, hviews, _⟩ :=
      spec_triple_realized hnodup hperm htest
    refine List.mem_map.mpr ⟨mkFace l style i j k, ?_, ?_⟩
    · unfold hullFaces
      refine List.mem_filterMap.mpr
        ⟨(i, j, k), (mem_hullTriples l.length i j k).mpr ⟨hij, hjk, hk⟩, ?_⟩
      rw [if_pos htestB]
    · rw [faceView_mkFace]
      exact hviews style

lemma mem_edgeViews_iff {l : List NodeData} (style : ConnectionStyle)
    (hnodup : (l.map NodeData.id).Nodup) (hdash : ∀ n ∈ l, dashFree n.id)
    (w : Multiset String × Multiset Vec3 × Vec3) :
    w ∈ (hullEdges l style).map edgeView ↔ EdgeSpec l style w := by
  constructor
  · intro hw
    obtain ⟨e, he, rfl⟩ := List.mem_map.mp hw
    obtain ⟨p, hp, rfl⟩ := hullEdges_sound he
    obtain ⟨i, j, k, hij, hjk, hk, htest, hside⟩ := hullSidePairs_sound hp
    refine ⟨nd l i, nd l j, nd l k, othersOf l i j k,
      perm_split_triple l hij hjk hk,
      (isFaceTest_iff_testNodes l i j k).mp htest, ?_⟩
    rcases hside with h | h | h
    · rw [h]
      exact Or.inl (edgeView_mkEdge l style i j)
    · rw [h]
      exact Or.inr (Or.inl (edgeView_mkEdge l style j k))
    · rw [h]
      exact Or.inr (Or.inr (edgeView_mkEdge l style i k))
  · rintro ⟨na, nb, nc, others, hperm, htest, hside⟩
    obtain ⟨i, j, k, hij, hjk, hk, htestB, _, hsides⟩ :=
      spec_triple_realized hnodup hperm htest
    obtain ⟨hpij, hpjk, hpik⟩ := triple_sidePairs hij hjk hk htestB
    rcases hsides style w hside with h | h | h
    · exact List.mem_map.mpr ⟨mkEdge l style i j,
        hull_pair_edge_mem hnodup hdash hpij, by rw [edgeView_mkEdge]; exact h.symm⟩
    · exact List.mem_map.mpr ⟨mkEdge l style j k,
        hull_pair_edge_mem hnodup hdash hpjk, by rw [edgeView_mkEdge]; exact h.symm⟩
    · exact List.mem_map.mpr ⟨mkEdge l style i k,
        hull_pair_edge_mem hnodup hdash hpik, by rw [edgeView_mkEdge]; exact h.symm⟩

lemma FaceSpec_perm {l l' : List NodeData} {style : ConnectionStyle}
    (hp : List.Perm l' l)
    {v : Multiset String × Multiset Vec3 × Multiset Vec3 × Multiset String}
    (h : FaceSpec l style v) : FaceSpec l' style v := by
  obtain ⟨na, nb, nc, o, h1, h2, h3⟩ := h
  exact ⟨na, nb, nc, o, hp.trans h1, h2, h3⟩

lemma EdgeSpec_perm {l l' : List NodeData} {style : ConnectionStyle}
    (hp : List.Perm l' l) {w : Multiset String × Multiset Vec3 × Vec3}
    (h : EdgeSpec l style w) : EdgeSpec l' style w := by
  obtain ⟨na, nb, nc, o, h1, h2, h3⟩ := h
  exact ⟨na, nb, nc, o, hp.trans h1, h2, h3⟩

/-- Claim C9 (amended): for every node list whose ids are pairwise
distinct and contain no `'-'` character, hull mode is invariant under
reordering of the input node list: every permutation of the list yields
the same set of faces (compared as unordered views — id, position,
control-point and color multisets) and the same set of edges (compared as
unordered views — id pair, endpoint pair and control point; the edge
color is genuinely order dependent, being the lower-indexed node's
color, and is excluded). Without the dash restriction the claim fails:
edge dedup keys collide and the edge set depends on the input order. -/
theorem hull_permutation_invariant (l l' : List NodeData) (style : ConnectionStyle)
    (hperm : List.Perm l' l)
    (hnodup : (l.map NodeData.id).Nodup)
    (hdash : ∀ n ∈ l, dashFree n.id) :
    (∀ w, w ∈ (computeConvexHull l style).1.map edgeView ↔
        w ∈ (computeConvexHull l' style).1.map edgeView) ∧
    (∀ v, v ∈ (computeConvexHull l style).2.map faceView ↔
        v ∈ (computeConvexHull l' style).2.map faceView) := by
  have hlen : l'.length = l.length := hperm.length_eq
  have hnodup' : (l'.map NodeData.id).Nodup :=
    (hperm.map NodeData.id).nodup_iff.mpr hnodup
  have hdash' : ∀ n ∈ l', dashFree n.id := fun n hn => hdash n (hperm.subset hn)
  by_cases hsmall : l.length < 4
  · have e1 : computeConvexHull l style = ([], []) := by
      unfold computeConvexHull
      rw [if_pos hsmall]
    have e2 : computeConvexHull l' style = ([], []) := by
      unfold computeConvexHull
      rw [hlen, if_pos hsmall]
    rw [e1, e2]
    exact ⟨fun w => Iff.rfl, fun v => Iff.rfl⟩
  · have e1 : computeConvexHull l style = (hullEdges l style, hullFaces l style) := by
      unfold computeConvexHull
      rw [if_neg hsmall]
    have e2 : computeConvexHull l' style = (hullEdges l' style, hullFaces l' style) := by
      unfold computeConvexHull
      rw [hlen, if_neg hsmall]
    rw [e1, e2]
    constructor
    · intro w
      show w ∈ (hullEdges l style).map edgeView ↔ w ∈ (hullEdges l' style).map edgeView
      rw [mem_edgeViews_iff style hnodup hdash w, mem_edgeViews_iff style hnodup' hdash' w]
      exact ⟨EdgeSpec_perm hperm, EdgeSpec_perm hperm.symm⟩
    · intro v
      show v ∈ (hullFaces l style).map faceView ↔ v ∈ (hullFaces l' style).map faceView
      rw [mem_faceViews_iff style hnodup v, mem_faceViews_iff style hnodup' v]
      exact ⟨FaceSpec_perm hperm, FaceSpec_perm hperm.symm⟩

/-- Witness for the amended C9 at a concrete permutation: swapping the
two dash-free witness nodes leaves the hull's face views unchanged. -/
theorem hull_permutation_invariant_witness :
    List.Perm [nodeW1, nodeW0] cfgW ∧ (cfgW.map NodeData.id).Nodup ∧
      (∀ n ∈ cfgW, dashFree n.id) ∧
      (∀ v, v ∈ (computeConvexHull cfgW ConnectionStyle.straight).2.map faceView ↔
        v ∈ (computeConvexHull [nodeW1, nodeW0] ConnectionStyle.straight).2.map faceView) := by
  have h1 : List.Perm [nodeW1, nodeW0] cfgW := List.Perm.swap nodeW0 nodeW1 []
  have h2 : (cfgW.map NodeData.id).Nodup := by
    rw [show cfgW.map NodeData.id = ["x", "y"] from rfl]
    decide
  have h3 : ∀ n ∈ cfgW, dashFree n.id := by
    intro n hn
    rcases List.mem_cons.mp hn with h | hn
    · rw [h]
      exact (by decide : ('-' : Char) ∉ ("x" : String).data)
    · rcases List.mem_cons.mp hn with h | hn
      · rw [h]
        exact (by decide : ('-' : Char) ∉ ("y" : String).data)
      · simp at hn
  exact ⟨h1, h2, h3,
    (hull_permutation_invariant cfgW [nodeW1, nodeW0] ConnectionStyle.straight h1 h2 h3).2⟩
